import Mathlib

/-!
Verification development for the rspamd scan/metric engine, fuzzy storage
server, redis-backed fuzzy backend, redis connection pool and statistics
learn path.  C doubles are embedded as exact rationals (`ℚ`); the C `NAN`
marker returned by `rspamd_check_group_score` is embedded as `Option.none`;
GLib hash tables are embedded as association lists keyed by decidable
equality.  Every definition mirrors the corresponding C function from the
repository sources (`src/libmime/filter.c`, `src/fuzzy_storage.c`,
`src/libserver/fuzzy_backend_redis.c`, `src/libserver/redis_pool.c`,
`src/libstat/stat_process.c`).
-/

set_option maxHeartbeats 1000000

namespace Rspamd

/-- C `gdouble`, embedded as an exact rational. -/
abbrev gdouble := ℚ

/-- `signbit` from `<math.h>` applied to the embedded doubles: true exactly on
negative values (the embedding has no negative zero). -/
def signbitq (x : gdouble) : Bool := decide (x < 0)

/-- Association-list lookup, the embedding of `g_hash_table_lookup`. -/
def alist_find {α β : Type} [DecidableEq α] : List (α × β) → α → Option β
  | [], _ => none
  | (k, v) :: rest, key => if key = k then some v else alist_find rest key

/-- Association-list update: replaces the binding of `key` in place, or appends
a fresh binding (the embedding of `g_hash_table_insert` / writing through a
looked-up pointer). -/
def alist_set {α β : Type} [DecidableEq α] : List (α × β) → α → β → List (α × β)
  | [], key, val => [(key, val)]
  | (k, v) :: rest, key, val =>
    if key = k then (k, val) :: rest else (k, v) :: alist_set rest key val

/-! ## Metric / result engine (`src/libmime/filter.c`) -/

/-- `struct rspamd_symbols_group` as used by `filter.c`: a named group with a
`max_score` cap.  Pointer identity of group objects is embedded as value
identity. -/
structure rspamd_symbols_group where
  name : String
  max_score : gdouble
deriving DecidableEq

/-- `struct rspamd_symbol` (the per-metric symbol definition) as used by
`insert_metric_result`: dereferenced weight pointer, optional group reference,
`nshots` limit and the `RSPAMD_SYMBOL_FLAG_ONEPARAM` flag consulted by
`rspamd_task_add_result_option`. -/
structure rspamd_symbol where
  weight : gdouble
  gr : Option rspamd_symbols_group
  nshots : Int
  flag_oneparam : Bool
deriving DecidableEq

/-- `struct rspamd_symbol_result`: the per-task record of an inserted symbol.
`options = none` embeds a `NULL` options hash table. -/
structure rspamd_symbol_result where
  score : gdouble
  options : Option (List String)
  nshots : Nat
  sym : Option rspamd_symbol
deriving DecidableEq

/-- `struct rspamd_metric_result`: cumulative score, current grow factor, the
symbol-result table and the per-group accumulated-score table. -/
structure rspamd_metric_result where
  score : gdouble
  grow_factor : gdouble
  symbols : List (String × rspamd_symbol_result)
  sym_groups : List (rspamd_symbols_group × gdouble)
deriving DecidableEq

/-- The configuration environment consulted by `insert_metric_result`: the
metric's symbol table (`metric->symbols`), the metric's `grow_factor`, the
task's settings overrides (`task->settings`, as the per-symbol replacement
score already looked up) and `task->cfg->default_max_shots`. -/
structure rspamd_task_cfg where
  metric_symbols : List (String × rspamd_symbol)
  metric_grow_factor : gdouble
  settings : List (String × gdouble)
  default_max_shots : Int
deriving DecidableEq

/-- The fresh metric result made by `rspamd_create_metric_result`: empty
tables, zero score, zero grow factor. -/
def rspamd_create_metric_result : rspamd_metric_result :=
  { score := 0, grow_factor := 0, symbols := [], sym_groups := [] }

/-- `rspamd_check_group_score` (`filter.c:72`): for a positive contribution
`w` into a group with a positive `max_score`, returns `none` (the C `NAN`)
once the accumulated group score has reached the cap, clips `w` to the
remaining headroom when it would overshoot, and passes `w` through
otherwise. -/
def rspamd_check_group_score (gr : Option rspamd_symbols_group)
    (group_score : Option gdouble) (w : gdouble) : Option gdouble :=
  match gr, group_score with
  | some g, some gs =>
    if g.max_score > 0 ∧ w > 0 then
      if gs ≥ g.max_score then none
      else if gs + w > g.max_score then some (g.max_score - gs)
      else some w
    else some w
  | _, _ => some w

/-- `(guint) i` for a C `gint`: reduction modulo `2^32`. -/
def guint_of_gint (i : Int) : Nat := (i % (2 ^ 32 : Int)).toNat

/-- `rspamd_task_add_result_option` (`filter.c:318`) restricted to the fields
it mutates on the symbol result.  With a `NULL` value nothing changes; with a
live options table that is neither one-param-limited nor full, the value is
appended if absent; otherwise a fresh table holding only the value replaces
the old one. -/
def rspamd_task_add_result_option (cfg : rspamd_task_cfg)
    (s : rspamd_symbol_result) (val : Option String) : rspamd_symbol_result :=
  match val with
  | none => s
  | some v =>
    match s.options with
    | some opts =>
      if ¬((s.sym.elim false (·.flag_oneparam)) = true) ∧
          opts.length < guint_of_gint cfg.default_max_shots then
        if opts.contains v then s else { s with options := some (opts ++ [v]) }
      else
        { s with options := some [v] }
    | none => { s with options := some [v] }

/-- The duplicate-option test of `insert_metric_result` (`filter.c:162`):
true when an option string is supplied, the symbol already has an options
table, and the option is present in it. -/
def insert_opt_dup (s : rspamd_symbol_result) (opt : Option String) : Bool :=
  match opt, s.options with
  | some o, some l => l.contains o
  | _, _ => false

/-- The `max_shots` bound of a non-single duplicate insertion
(`filter.c:149`–`154`): the definition's `nshots`, or
`task->cfg->default_max_shots` without a definition. -/
def insert_max_shots (cfg : rspamd_task_cfg) (sdef : Option rspamd_symbol) :
    Int :=
  match sdef with
  | some d => d.nshots
  | none => cfg.default_max_shots

/-- The `single` flag actually in force for a duplicate insertion
(`filter.c:144`–`164`): `max_shots` is 1 when already single, else the
definition's `nshots` (or the configured default without a definition);
exhausting `max_shots` forces single mode, as does a duplicate option. -/
def insert_effective_single (cfg : rspamd_task_cfg)
    (sdef : Option rspamd_symbol) (s : rspamd_symbol_result)
    (opt : Option String) (single : Bool) : Bool :=
  let max_shots : Int :=
    if single then 1
    else insert_max_shots cfg sdef
  let single1 :=
    if ¬single ∧ (max_shots > 0 ∧ (s.nshots : Int) ≥ max_shots) then true
    else single
  if insert_opt_dup s opt then true else single1

/-- The `diff` computed for a duplicate insertion (`filter.c:170`–`182`):
the raw weight in multi-shot mode; in single mode the replacement delta
`w - s.score` when the new weight is strictly more significant with the same
sign bit, and `0` otherwise. -/
def insert_dup_diff (w : gdouble) (sscore : gdouble) (single_eff : Bool) :
    gdouble :=
  if ¬(single_eff = true) then w
  else if |sscore| < |w| ∧ signbitq sscore = signbitq w then w - sscore
  else 0

/-- The grow-factor adjustment shared by both insertion branches
(`filter.c:185`–`192` and `216`–`223`): a positive contribution is multiplied
by the current grow factor when one is active, and the next grow factor
becomes the metric's; non-positive contributions reset the next grow factor
to `1`. -/
def apply_grow_factor (cur_gf metric_gf : gdouble) (d : gdouble) :
    gdouble × gdouble :=
  if ¬(cur_gf = 0) ∧ d > 0 then (d * cur_gf, metric_gf)
  else if d > 0 then (d, metric_gf)
  else (d, 1)

/-- The effective weight of an insertion (`filter.c:112`–`141`): the
definition's weight times `flag`, `0` without a definition, then possibly
replaced by a task-settings score (again times `flag`). -/
def insert_weight (cfg : rspamd_task_cfg) (symbol : String) (flag : gdouble) :
    gdouble :=
  let w0 : gdouble :=
    match alist_find cfg.metric_symbols symbol with
    | none => 0
    | some d => d.weight * flag
  match alist_find cfg.settings symbol with
  | some corr => corr * flag
  | none => w0

/-- The group-score table after the lookup-or-insert of `filter.c:120`–`128`:
when the symbol has a definition with a group and no accumulator exists yet,
a zero accumulator is added. -/
def insert_sym_groups (cfg : rspamd_task_cfg) (mres : rspamd_metric_result)
    (symbol : String) : List (rspamd_symbols_group × gdouble) :=
  match alist_find cfg.metric_symbols symbol with
  | some d =>
    match d.gr with
    | some g =>
      match alist_find mres.sym_groups g with
      | some _ => mres.sym_groups
      | none => mres.sym_groups ++ [(g, 0)]
    | none => mres.sym_groups
  | none => mres.sym_groups

/-- The candidate contribution handed to `rspamd_check_group_score` by
`insert_metric_result`: for a duplicate insertion the grow-factor-adjusted
duplicate `diff`, for a first insertion the grow-factor-adjusted effective
weight. -/
def insert_candidate_diff (cfg : rspamd_task_cfg) (mres : rspamd_metric_result)
    (symbol : String) (flag : gdouble) (opt : Option String) (single : Bool) :
    gdouble :=
  let sdef := alist_find cfg.metric_symbols symbol
  let w := insert_weight cfg symbol flag
  match alist_find mres.symbols symbol with
  | some s =>
    let se := insert_effective_single cfg sdef s opt single
    let d0 := insert_dup_diff w s.score se
    (apply_grow_factor mres.grow_factor cfg.metric_grow_factor d0).1
  | none =>
    (apply_grow_factor mres.grow_factor cfg.metric_grow_factor w).1

/-- `insert_metric_result` (`filter.c:94`): one symbol insertion into a
metric result.  Mirrors the C control flow: symbol definition and group
accumulator lookup, settings override, the duplicate branch (shot limit,
duplicate options, single-mode diff, grow factor, group cap, commit) and the
first-insertion branch (grow factor, group cap, commit or zero score on a
capped group). -/
def insert_metric_result (cfg : rspamd_task_cfg) (mres : rspamd_metric_result)
    (symbol : String) (flag : gdouble) (opt : Option String) (single : Bool) :
    rspamd_metric_result :=
  let sdef := alist_find cfg.metric_symbols symbol
  let gr : Option rspamd_symbols_group :=
    match sdef with
    | some d => d.gr
    | none => none
  let sym_groups1 := insert_sym_groups cfg mres symbol
  let gr_score : Option gdouble :=
    match gr with
    | some g => alist_find sym_groups1 g
    | none => none
  let w := insert_weight cfg symbol flag
  match alist_find mres.symbols symbol with
  | some s =>
    let se := insert_effective_single cfg sdef s opt single
    let s1 :=
      if insert_opt_dup s opt then s
      else rspamd_task_add_result_option cfg { s with nshots := s.nshots + 1 } opt
    let d0 := insert_dup_diff w s.score se
    if ¬(d0 = 0) then
      let gfr := apply_grow_factor mres.grow_factor cfg.metric_grow_factor d0
      match rspamd_check_group_score gr gr_score gfr.1 with
      | some d2 =>
        { score := mres.score + d2
          grow_factor := gfr.2
          symbols := alist_set mres.symbols symbol
            { s1 with score := if se then w else s1.score + d2 }
          sym_groups :=
            match gr with
            | some g => alist_set sym_groups1 g (gr_score.getD 0 + d2)
            | none => sym_groups1 }
      | none =>
        { mres with symbols := alist_set mres.symbols symbol s1
                    sym_groups := sym_groups1 }
    else
      { mres with symbols := alist_set mres.symbols symbol s1
                  sym_groups := sym_groups1 }
  | none =>
    let s0 : rspamd_symbol_result :=
      { score := 0, options := none, nshots := 1, sym := sdef }
    let gfr := apply_grow_factor mres.grow_factor cfg.metric_grow_factor w
    match rspamd_check_group_score gr gr_score gfr.1 with
    | some w2 =>
      { score := mres.score + w2
        grow_factor := gfr.2
        symbols := alist_set mres.symbols symbol
          (rspamd_task_add_result_option cfg { s0 with score := w2 } opt)
        sym_groups :=
          match gr with
          | some g => alist_set sym_groups1 g (gr_score.getD 0 + w2)
          | none => sym_groups1 }
    | none =>
      { mres with
          symbols := alist_set mres.symbols symbol
            (rspamd_task_add_result_option cfg { s0 with score := 0 } opt)
          sym_groups := sym_groups1 }

/-- One queued insertion request (the arguments of a
`rspamd_task_insert_result` call reaching `insert_metric_result`). -/
structure insert_op where
  symbol : String
  flag : gdouble
  opt : Option String
  single : Bool
deriving DecidableEq

/-- A sequence of insertions applied to a metric result. -/
def apply_inserts (cfg : rspamd_task_cfg) (ops : List insert_op)
    (mres : rspamd_metric_result) : rspamd_metric_result :=
  ops.foldl (fun m op => insert_metric_result cfg m op.symbol op.flag op.opt op.single) mres

/-! ## Action selection (`rspamd_check_action_metric`, `filter.c:361`)

Actions are embedded by their index in `enum rspamd_metric_action`:
index `0` is `METRIC_ACTION_REJECT` (most severe) and severity decreases as
the index grows.  `actions_limits` is embedded as a list of `Option gdouble`
(`none` is a `NAN` threshold).  A selection result of `none` is
`METRIC_ACTION_NOACTION`. -/

/-- The scanning loop of the no-pre-result branch (`filter.c:369`–`381`):
walks the thresholds with a running maximum (started at `0`) and remembers
the index of every strict improvement that the accumulated score reaches. -/
def rspamd_check_action_loop (score : gdouble) :
    List (Option gdouble) → Nat → gdouble → Option Nat → Option Nat
  | [], _, _, sel => sel
  | sc? :: rest, i, m, sel =>
    match sc? with
    | none => rspamd_check_action_loop score rest (i + 1) m sel
    | some sc =>
      if score ≥ sc ∧ sc > m then
        rspamd_check_action_loop score rest (i + 1) sc (some i)
      else
        rspamd_check_action_loop score rest (i + 1) m sel

/-- `rspamd_check_action_metric` with `task->pre_result.action ==
METRIC_ACTION_MAX` (no pre-result). -/
def rspamd_check_action_metric_nopre (limits : List (Option gdouble))
    (score : gdouble) : Option Nat :=
  rspamd_check_action_loop score limits 0 0 none

/-- The pre-result branch's scan (`filter.c:386`–`400`): starting at the
pre-result action, stop at the first defined threshold; a `NAN` threshold at
the pre-result action itself stops immediately with `sc = 0`; running off
the end leaves `sc` undefined. -/
def rspamd_action_pre_go :
    List (Option gdouble) → Nat → Bool → Option Nat × Option gdouble
  | [], _, _ => (none, none)
  | sc? :: rest, i, first =>
    match sc? with
    | some sc => (some i, some sc)
    | none =>
      if first then (some i, some 0)
      else
        match rest with
        | [] => (some i, none)
        | _ :: _ => rspamd_action_pre_go rest (i + 1) false

/-- `rspamd_check_action_metric` (`filter.c:361`): returns the selected
action (as `Option` index, `none` being no-action) together with the metric
score after the call (the pre-result branch overwrites it). -/
def rspamd_check_action_metric (pre : Option Nat)
    (limits : List (Option gdouble)) (score : gdouble) : Option Nat × gdouble :=
  match pre with
  | none => (rspamd_check_action_metric_nopre limits score, score)
  | some p =>
    let r := rspamd_action_pre_go (limits.drop p) p true
    (r.1, r.2.getD 0)

/-! ## Fuzzy storage server (`src/fuzzy_storage.c`) -/

/-- The command codes dispatched by `rspamd_fuzzy_process_command`
(`FUZZY_CHECK`, `FUZZY_WRITE`, `FUZZY_DEL`). -/
inductive rspamd_fuzzy_cmd_type where
  | check
  | write
  | del
deriving DecidableEq

/-- The fields of `struct rspamd_fuzzy_cmd` that the storage server's command
processing reads (the digest and shingles travel to the backend opaquely). -/
structure rspamd_fuzzy_cmd where
  cmd : rspamd_fuzzy_cmd_type
  flag : Int
  value : Int
  tag : Nat
deriving DecidableEq

/-- `struct rspamd_fuzzy_reply`. -/
structure rspamd_fuzzy_reply where
  value : Int
  flag : Int
  prob : gdouble
  tag : Nat
deriving DecidableEq

/-- `struct fuzzy_session` restricted to what command processing consults:
the legacy-wire flag, the peer address, the configured `update_ips` radix
(`none` embeds a `NULL` map, `some ips` a map containing exactly `ips`)
and the parsed command.  Addresses are embedded as naturals. -/
structure fuzzy_session where
  legacy : Bool
  addr : Nat
  update_ips : Option (List Nat)
  cmd : rspamd_fuzzy_cmd
deriving DecidableEq

/-- `rspamd_fuzzy_check_client` (`fuzzy_storage.c:100`): with no configured
`update_ips` map every peer passes; otherwise the peer must be found in the
radix map. -/
def rspamd_fuzzy_check_client (session : fuzzy_session) : Bool :=
  match session.update_ips with
  | some ips => ips.contains session.addr
  | none => true

/-- The backend results observed by one `rspamd_fuzzy_process_command` call:
the reply `rspamd_fuzzy_backend_check` would produce and the boolean results
of `rspamd_fuzzy_backend_add` / `rspamd_fuzzy_backend_del`. -/
structure fuzzy_backend_oracle where
  check_reply : rspamd_fuzzy_reply
  add_result : Bool
  del_result : Bool
deriving DecidableEq

/-- The observable outcome of `rspamd_fuzzy_process_command`: the reply
handed to `rspamd_fuzzy_write_reply` plus whether the mutating backend
operations were invoked. -/
structure fuzzy_process_result where
  reply : rspamd_fuzzy_reply
  backend_add_called : Bool
  backend_del_called : Bool
deriving DecidableEq

/-- `rspamd_fuzzy_process_command` (`fuzzy_storage.c:150`): `FUZZY_CHECK`
queries the backend; any other command first passes the client check (403 on
failure without touching the mutating backend), then calls
`rspamd_fuzzy_backend_add` for `FUZZY_WRITE` and `rspamd_fuzzy_backend_del`
otherwise, replying 0/1.0 on success and 404/0.0 on failure.  The command's
flag is copied into the reply for non-check commands and the tag always. -/
def rspamd_fuzzy_process_command (session : fuzzy_session)
    (backend : fuzzy_backend_oracle) : fuzzy_process_result :=
  match session.cmd.cmd with
  | .check =>
    { reply := { backend.check_reply with tag := session.cmd.tag }
      backend_add_called := false
      backend_del_called := false }
  | .write =>
    if rspamd_fuzzy_check_client session then
      { reply :=
          { value := if backend.add_result then 0 else 404
            flag := session.cmd.flag
            prob := if backend.add_result then 1 else 0
            tag := session.cmd.tag }
        backend_add_called := true
        backend_del_called := false }
    else
      { reply :=
          { value := 403, flag := session.cmd.flag, prob := 0
            tag := session.cmd.tag }
        backend_add_called := false
        backend_del_called := false }
  | .del =>
    if rspamd_fuzzy_check_client session then
      { reply :=
          { value := if backend.del_result then 0 else 404
            flag := session.cmd.flag
            prob := if backend.del_result then 1 else 0
            tag := session.cmd.tag }
        backend_add_called := false
        backend_del_called := true }
    else
      { reply :=
          { value := 403, flag := session.cmd.flag, prob := 0
            tag := session.cmd.tag }
        backend_add_called := false
        backend_del_called := false }

/-- The serialized datagram produced by `rspamd_fuzzy_write_reply`: a text
line for legacy sessions, the fixed-layout binary structure otherwise. -/
inductive fuzzy_wire_reply where
  | text (s : String)
  | binary (rep : rspamd_fuzzy_reply)
deriving DecidableEq

/-- The `CRLF` line terminator. -/
def CRLF : String := "\r\n"

/-- `rspamd_fuzzy_write_reply` (`fuzzy_storage.c:112`): legacy sessions get
`OK <value> <flag>` for a found check, a bare `OK` for other commands with
`prob > 0.5`, and `ERR` otherwise; non-legacy sessions get the binary
reply verbatim. -/
def rspamd_fuzzy_write_reply (session : fuzzy_session)
    (rep : rspamd_fuzzy_reply) : fuzzy_wire_reply :=
  if session.legacy then
    if rep.prob > 1 / 2 then
      if session.cmd.cmd = .check then
        .text ("OK " ++ toString rep.value ++ " " ++ toString rep.flag ++ CRLF)
      else
        .text ("OK" ++ CRLF)
    else
      .text ("ERR" ++ CRLF)
  else
    .binary rep

/-! ## Redis connection pool (`src/libserver/redis_pool.c`) -/

/-- The pool configuration read by the cleanup scheduling
(`pool->timeout`, `pool->max_conns`). -/
structure rspamd_redis_pool_cfg where
  timeout : gdouble
  max_conns : Nat
deriving DecidableEq

/-- The queue lengths of one `struct rspamd_redis_pool_elt`. -/
structure rspamd_redis_pool_elt where
  active_len : Nat
  inactive_len : Nat
deriving DecidableEq

/-- `rspamd_redis_pool_schedule_timeout` (`redis_pool.c:184`): the pair
`(real_timeout, jitter amplitude)` handed to `rspamd_time_jitter`.  The
active queue length decides: above `max_conns` the timer runs at
`timeout / 2` with amplitude `real_timeout / 4`, otherwise at `timeout`
with amplitude `real_timeout / 2`. -/
def rspamd_redis_pool_schedule_timeout (elt : rspamd_redis_pool_elt)
    (pool : rspamd_redis_pool_cfg) : gdouble × gdouble :=
  if elt.active_len > pool.max_conns then
    (pool.timeout / 2, pool.timeout / 2 / 4)
  else
    (pool.timeout, pool.timeout / 2)

/-- Outcome of `rspamd_redis_pool_release_connection` for a connection that
is currently on the active queue: either the connection is torn down, or it
moves to the inactive queue and a cleanup timer is scheduled with the given
base delay and jitter amplitude. -/
inductive redis_release_outcome where
  | destroyed
  | scheduled (elt : rspamd_redis_pool_elt) (base : gdouble) (jitter : gdouble)
deriving DecidableEq

/-- `rspamd_redis_pool_release_connection` (`redis_pool.c:393`) for a
connection found active in `elt`: fatal releases and erred contexts tear the
connection down, as do leftover queued callbacks; otherwise the connection
is unlinked from the active queue, pushed onto the inactive queue, and the
cleanup timer is scheduled against the resulting queue lengths. -/
def rspamd_redis_pool_release_connection (pool : rspamd_redis_pool_cfg)
    (elt : rspamd_redis_pool_elt) (is_fatal ctx_err has_replies : Bool) :
    redis_release_outcome :=
  if is_fatal ∨ ctx_err then .destroyed
  else if ¬(has_replies = true) then
    let elt' : rspamd_redis_pool_elt :=
      { active_len := elt.active_len - 1, inactive_len := elt.inactive_len + 1 }
    let t := rspamd_redis_pool_schedule_timeout elt' pool
    .scheduled elt' t.1 t.2
  else .destroyed

/-! ## Redis fuzzy backend shingle voting
(`src/libserver/fuzzy_backend_redis.c`) -/

/-- `RSPAMD_SHINGLE_SIZE`. -/
def RSPAMD_SHINGLE_SIZE : Nat := 32

/-- `struct _rspamd_fuzzy_shingles_helper`: the 64-byte digest is embedded
as a natural number whose order coincides with `memcmp` order (big-endian
lexicographic on fixed-width arrays); a cleared digest is `0`. -/
structure shingles_helper where
  digest : Nat
  found : Bool
deriving DecidableEq

/-- The helper array built from the `MGET` reply
(`fuzzy_backend_redis.c:355`–`367`): a string element records its digest
with `found = 1`, anything else a zeroed digest with `found = 0`. -/
def shingles_of_reply (l : List (Option Nat)) : List shingles_helper :=
  l.map fun e =>
    match e with
    | some d => { digest := d, found := true }
    | none => { digest := 0, found := false }

/-- The duplicate-counting scan of `rspamd_fuzzy_redis_shingles_callback`
(`fuzzy_backend_redis.c:375`–`394`) over the sorted helper array: unfound
entries are skipped, a digest equal to the reference increments the counter
(recording every strict maximum), and a different digest resets the counter
to 1 and moves the reference. -/
def shingles_scan :
    List shingles_helper → shingles_helper → Nat → Nat →
    Option shingles_helper → Nat × Option shingles_helper
  | [], _, _, mf, sel => (mf, sel)
  | h :: rest, prev, cf, mf, sel =>
    if h.found = false then shingles_scan rest prev cf mf sel
    else if h.digest = prev.digest then
      if cf + 1 > mf then shingles_scan rest prev (cf + 1) (cf + 1) (some h)
      else shingles_scan rest prev (cf + 1) mf sel
    else shingles_scan rest h 1 mf sel

/-- What the shingles callback does next: report a miss, or run the second
`HMGET` on the selected digest with the session probability set. -/
inductive shingles_outcome where
  | miss
  | recheck (digest : Nat) (prob : gdouble)
deriving DecidableEq

/-- `rspamd_fuzzy_redis_shingles_callback` (`fuzzy_backend_redis.c:332`) on
a successful redis reply: requires exactly `RSPAMD_SHINGLE_SIZE` elements,
builds the helper array, and when more than half the shingles resolved,
sorts by digest (`qsort` with `memcmp`; the sort is embedded as insertion
sort, which agrees with any `qsort` whenever helpers with equal digests are
identical) and scans for the most repeated digest; a scan maximum above
half the shingle count schedules the second lookup with
`prob = max_found / RSPAMD_SHINGLE_SIZE`, otherwise the reply is a miss. -/
def rspamd_fuzzy_redis_shingles_callback (reply : List (Option Nat)) :
    shingles_outcome :=
  if reply.length = RSPAMD_SHINGLE_SIZE then
    let sh := shingles_of_reply reply
    let found := (sh.filter (fun h => h.found)).length
    if found > RSPAMD_SHINGLE_SIZE / 2 then
      match List.insertionSort (fun a b => a.digest ≤ b.digest) sh with
      | [] => .miss
      | first :: rest =>
        let r := shingles_scan rest first 0 0 none
        if r.1 > RSPAMD_SHINGLE_SIZE / 2 then
          match r.2 with
          | some sel =>
            .recheck sel.digest ((r.1 : gdouble) / (RSPAMD_SHINGLE_SIZE : gdouble))
          | none => .miss
        else .miss
    else .miss
  else .miss

/-- The next step taken by `rspamd_fuzzy_redis_check_callback`
(`fuzzy_backend_redis.c:521`): either a reply to the caller or the batched
shingle lookup over `RSPAMD_SHINGLE_SIZE` keys. -/
inductive fuzzy_check_step where
  | reply (rep : rspamd_fuzzy_reply)
  | check_shingles (nkeys : Nat)
deriving DecidableEq

/-- `rspamd_fuzzy_redis_check_callback` on the direct digest `HMGET` reply:
string `V` and `F` fields hit with the session probability; a partial or
empty reply falls through to `rspamd_fuzzy_backend_check_shingles` (which
issues one `MGET` over all `RSPAMD_SHINGLE_SIZE` shingle keys,
`fuzzy_backend_redis.c:468`–`493`) when the command carries shingles and
they were not checked yet, and is a plain reply otherwise. -/
def rspamd_fuzzy_redis_check_callback (reply_ok : Bool) (v f : Option Int)
    (shingles_count : Nat) (shingles_checked : Bool)
    (session_prob : gdouble) : fuzzy_check_step :=
  if reply_ok then
    let rep : rspamd_fuzzy_reply :=
      { value := v.getD 0, flag := f.getD 0
        prob := if v.isSome ∧ f.isSome then session_prob else 0
        tag := 0 }
    if v.isSome ∧ f.isSome then .reply rep
    else if shingles_count > 0 ∧ ¬(shingles_checked = true) then
      .check_shingles RSPAMD_SHINGLE_SIZE
    else .reply rep
  else .reply { value := 0, flag := 0, prob := 0, tag := 0 }

/-! ## Statistics learn path (`src/libstat/stat_process.c`) -/

/-- `rspamd_learn_t` (the result of a learn-cache `process` callback);
`ingore` is the source's spelling of `RSPAMD_LEARN_INGORE`. -/
inductive rspamd_learn_t where
  | ok
  | unlearn
  | ingore
deriving DecidableEq

/-- A statfile configuration: its identity and class. -/
structure rspamd_statfile_cfg where
  id : Nat
  is_spam : Bool
deriving DecidableEq

/-- A classifier configuration together with the behaviour of its
classifier callbacks during this learn: whether `init_func` yields a
context and whether `learn_spam_func` succeeds. -/
structure rspamd_classifier_cfg where
  id : Nat
  statfiles : List rspamd_statfile_cfg
  init_ok : Bool
  learn_ok : Bool
deriving DecidableEq

/-- The inputs `rspamd_stat_learn` consumes: the task's message id, the
result of each registered learn cache's `process` call in registration
order, and the configured classifiers. -/
structure rspamd_learn_env where
  message_id : String
  caches : List rspamd_learn_t
  classifiers : List rspamd_classifier_cfg
deriving DecidableEq

/-- The backend- and classifier-mutating steps `rspamd_stat_learn` performs,
in order: the `learn_spam_func` invocation, the `learn_token` walk over the
token tree, and the per-statfile `dec_learns` / `inc_learns` /
`finalize_learn` calls. -/
inductive stat_event where
  | learn_classifier (cl : Nat)
  | learn_tokens (cl : Nat)
  | dec_learns (st : Nat)
  | inc_learns (st : Nat)
  | finalize_learn (st : Nat)
deriving DecidableEq

/-- A `GError` set through `g_set_error`. -/
structure learn_error where
  code : Nat
  msg : String
deriving DecidableEq

/-- The function result: `RSPAMD_STAT_PROCESS_OK`, or
`RSPAMD_STAT_PROCESS_ERROR` with the `GError` when one is set by
`rspamd_stat_learn` itself (`none` embeds errors set by callees). -/
inductive learn_result where
  | ok
  | err (e : Option learn_error)
deriving DecidableEq

/-- Result and observable mutation trace of one `rspamd_stat_learn` call. -/
structure learn_outcome where
  result : learn_result
  events : List stat_event
deriving DecidableEq

/-- The learn-cache loop (`stat_process.c:547`–`561`): the first
`RSPAMD_LEARN_INGORE` aborts (`none`); `RSPAMD_LEARN_UNLEARN` turns the
unlearn flag on; the surviving flag is returned. -/
def stat_learn_check_caches : List rspamd_learn_t → Bool → Option Bool
  | [], unl => some unl
  | r :: rest, unl =>
    match r with
    | .ingore => none
    | .unlearn => stat_learn_check_caches rest true
    | .ok => stat_learn_check_caches rest unl

/-- The `GError` built for an already-learned message
(`stat_process.c:553`). -/
def ignore_error (message_id : String) (spam : Bool) : learn_error :=
  { code := 404
    msg := "<" ++ message_id ++ "> has been already learned as " ++
      (if spam then "spam" else "ham") ++ ", ignore it" }

/-- The statfile runtimes `rspamd_stat_preprocess` builds for one classifier
(`stat_process.c:200`–`242`): in `RSPAMD_LEARN_OP` statfiles of the other
class are skipped, in `RSPAMD_UNLEARN_OP` all are kept; `g_list_prepend`
reverses the configuration order. -/
def stat_preprocess_statfiles (unlearn spam : Bool)
    (l : List rspamd_statfile_cfg) : List rspamd_statfile_cfg :=
  (if unlearn then l else l.filter (fun st => st.is_spam = spam)).reverse

/-- The classifier runtimes `rspamd_stat_preprocess` returns
(`stat_process.c:167`–`277`): classifiers whose statfile runtime list came
out empty are dropped, and `g_list_prepend` reverses the order. -/
def stat_preprocess (unlearn spam : Bool)
    (classifiers : List rspamd_classifier_cfg) : List rspamd_classifier_cfg :=
  (classifiers.filterMap fun cl =>
    let sts := stat_preprocess_statfiles unlearn spam cl.statfiles
    if sts = [] then none else some { cl with statfiles := sts }).reverse

/-- The per-statfile learn-count updates after a successful classifier learn
(`stat_process.c:592`–`614`): opposite-class statfiles are decremented in
unlearn mode, everything else incremented, each followed by
`finalize_learn`. -/
def stat_learn_statfile_events (unlearn spam : Bool)
    (sts : List rspamd_statfile_cfg) : List stat_event :=
  sts.flatMap fun st =>
    [if unlearn ∧ ¬(st.is_spam = spam) then .dec_learns st.id
     else .inc_learns st.id,
     .finalize_learn st.id]

/-- The classifier loop of `rspamd_stat_learn` (`stat_process.c:569`–`624`):
a `NULL` classifier context skips the classifier; a failed
`learn_spam_func` returns `RSPAMD_STAT_PROCESS_ERROR` at once; a successful
one records the token walk and the statfile count updates and marks the
overall result OK. -/
def stat_learn_run (unlearn spam : Bool) :
    List rspamd_classifier_cfg → Bool → List stat_event → learn_outcome
  | [], ret, evs => { result := if ret then .ok else .err none, events := evs }
  | cl :: rest, ret, evs =>
    if cl.init_ok then
      let evs1 := evs ++ [stat_event.learn_classifier cl.id]
      if cl.learn_ok then
        stat_learn_run unlearn spam rest true
          (evs1 ++ [stat_event.learn_tokens cl.id] ++
            stat_learn_statfile_events unlearn spam cl.statfiles)
      else { result := .err none, events := evs1 }
    else stat_learn_run unlearn spam rest ret evs

/-- `rspamd_stat_learn` (`stat_process.c:489`): tokenization (which mutates
only task-local state and is not traced), then the learn-cache check — an
`INGORE` result returns the 404 "already learned, ignore it" error before
any runtime is created — then classifier/statfile runtime construction (an
empty runtime list propagates `RSPAMD_STAT_PROCESS_ERROR`), then the
classifier learn loop. -/
def rspamd_stat_learn (env : rspamd_learn_env) (spam : Bool) : learn_outcome :=
  match stat_learn_check_caches env.caches false with
  | none =>
    { result := .err (some (ignore_error env.message_id spam)), events := [] }
  | some unlearn =>
    match stat_preprocess unlearn spam env.classifiers with
    | [] => { result := .err none, events := [] }
    | cl :: rest => stat_learn_run unlearn spam (cl :: rest) false []

/-! ## Claim-level specification functions

The following definitions formalise claim sentences in the spec's own words,
to be compared against the source-derived definitions above. -/

/-- The action-selection contract exactly as the claim states it: the chosen
index has a defined threshold that is `≤ score` and is the largest among all
defined thresholds `≤ score`, ties broken toward the more severe (smaller)
index; `none` (no-action) is only returned when no action qualifies. -/
def action_claim_spec (limits : List (Option gdouble)) (score : gdouble)
    (res : Option Nat) : Prop :=
  match res with
  | some i => ∃ t : gdouble, limits[i]? = some (some t) ∧ t ≤ score ∧
      (∀ (j : Nat) (t' : gdouble),
        limits[j]? = some (some t') → t' ≤ score → t' ≤ t) ∧
      (∀ j : Nat, j < i → ∀ t' : gdouble,
        limits[j]? = some (some t') → t' ≤ score → t' < t)
  | none => ∀ (j : Nat) (t : gdouble), limits[j]? = some (some t) → ¬(t ≤ score)

/-- The action-selection contract amended with the strict positivity the
code's zero-initialised running maximum imposes on a selectable
threshold. -/
def action_claim_spec_pos (limits : List (Option gdouble)) (score : gdouble)
    (res : Option Nat) : Prop :=
  match res with
  | some i => ∃ t : gdouble, limits[i]? = some (some t) ∧ 0 < t ∧ t ≤ score ∧
      (∀ (j : Nat) (t' : gdouble),
        limits[j]? = some (some t') → t' ≤ score → t' ≤ t) ∧
      (∀ j : Nat, j < i → ∀ t' : gdouble,
        limits[j]? = some (some t') → t' ≤ score → t' < t)
  | none => ∀ (j : Nat) (t : gdouble),
      limits[j]? = some (some t) → 0 < t → ¬(t ≤ score)

/-- The cleanup delay as the claim words it: decided by the *inactive* queue
length. -/
def redis_cleanup_claim_delay (elt : rspamd_redis_pool_elt)
    (pool : rspamd_redis_pool_cfg) : gdouble × gdouble :=
  if elt.inactive_len > pool.max_conns then
    (pool.timeout / 2, pool.timeout / 2 / 4)
  else
    (pool.timeout, pool.timeout / 2)

/-- The digests that resolved in the shingle `MGET` reply. -/
def resolved_digests (reply : List (Option Nat)) : List Nat :=
  reply.filterMap id

/-- The number of occurrences of the most frequent resolved digest. -/
def c4_max_count (reply : List (Option Nat)) : Nat :=
  ((resolved_digests reply).map
    (fun d => (resolved_digests reply).count d)).foldr max 0

/-- The shingle-voting contract exactly as the claim states it: with at
least 17 resolved shingles whose most frequent digest occurs more than 16
times, the outcome is a second lookup on that digest with probability
`max_count / 32`; otherwise a miss. -/
def c4_claim_spec (reply : List (Option Nat)) : Prop :=
  if 17 ≤ (resolved_digests reply).length ∧ 16 < c4_max_count reply then
    ∃ d, d ∈ resolved_digests reply ∧
      (resolved_digests reply).count d = c4_max_count reply ∧
      rspamd_fuzzy_redis_shingles_callback reply =
        .recheck d ((c4_max_count reply : gdouble) / 32)
  else rspamd_fuzzy_redis_shingles_callback reply = .miss

/-- The occurrence count of a resolved digest as the scan actually computes
it: when all 32 shingles resolved, the run of the smallest digest starts at
the array head, which the counter (started at the second element) counts
one short. -/
def c4_adj_count (reply : List (Option Nat)) (d : Nat) : Nat :=
  let R := resolved_digests reply
  if R.length = RSPAMD_SHINGLE_SIZE ∧ R.min? = some d then R.count d - 1
  else R.count d

/-- The largest adjusted occurrence count over the resolved digests. -/
def c4_adj_max (reply : List (Option Nat)) : Nat :=
  ((resolved_digests reply).map (c4_adj_count reply)).foldr max 0

/-- The unlearn-mode trace exactly as the claim states it, over the runtime
classifier and statfile lists: opposite-class statfiles are decremented,
requested-class statfiles incremented, each followed by `finalize_learn`
(with the classifier learn and token walk preceding each classifier's
statfile updates). -/
def c7_unlearn_trace (spam : Bool) (cls : List rspamd_classifier_cfg) :
    List stat_event :=
  cls.flatMap fun cl =>
    [stat_event.learn_classifier cl.id, stat_event.learn_tokens cl.id] ++
      cl.statfiles.flatMap fun st =>
        [if st.is_spam = spam then stat_event.inc_learns st.id
         else stat_event.dec_learns st.id,
         stat_event.finalize_learn st.id]

/-! ## Proof infrastructure for the shingle scan -/

/-- The duplicate-counting scan projected onto digests: the reference, the
skip of cleared (zero) digests and the counter updates of `shingles_scan`,
with `0` standing for an unfound slot. -/
def scanD : List Nat → Nat → Nat → Nat → Option Nat → Nat × Option Nat
  | [], _, _, mf, sel => (mf, sel)
  | d :: rest, ref, cf, mf, sel =>
    if d = 0 then scanD rest ref cf mf sel
    else if d = ref then
      if cf + 1 > mf then scanD rest ref (cf + 1) (cf + 1) (some d)
      else scanD rest ref (cf + 1) mf sel
    else scanD rest d 1 mf sel

/-- The helper the digest-level scan rebuilds: positive digests were found,
a zero digest is a cleared unfound slot. -/
def mk_helper (d : Nat) : shingles_helper :=
  { digest := d, found := decide (d ≠ 0) }

/-! # Theorems -/

/-! ## Fuzzy storage: client authorisation and reply serialisation -/

theorem check_client_false_of_not_mem (session : fuzzy_session)
    (ips : List Nat) (hips : session.update_ips = some ips)
    (hmem : ¬(session.addr ∈ ips)) :
    rspamd_fuzzy_check_client session = false := by
  unfold rspamd_fuzzy_check_client
  rw [hips]
  simpa using hmem

/-- Claim C5: for every fuzzy Write or Delete command, the server replies
`value = 403, prob = 0` without invoking the mutating backend when the
sender's address is not in the configured `update_ips` map; otherwise it
invokes the backend and replies `value = 0, prob = 1` on success and
`value = 404, prob = 0` on failure. -/
theorem c5_fuzzy_update_auth (session : fuzzy_session)
    (backend : fuzzy_backend_oracle)
    (h : session.cmd.cmd = .write ∨ session.cmd.cmd = .del) :
    ((∃ ips, session.update_ips = some ips ∧ ¬(session.addr ∈ ips)) →
      (rspamd_fuzzy_process_command session backend).reply.value = 403 ∧
      (rspamd_fuzzy_process_command session backend).reply.prob = 0 ∧
      (rspamd_fuzzy_process_command session backend).backend_add_called = false ∧
      (rspamd_fuzzy_process_command session backend).backend_del_called = false) ∧
    (rspamd_fuzzy_check_client session = true →
      (session.cmd.cmd = .write →
        (rspamd_fuzzy_process_command session backend).backend_add_called = true ∧
        (backend.add_result = true →
          (rspamd_fuzzy_process_command session backend).reply.value = 0 ∧
          (rspamd_fuzzy_process_command session backend).reply.prob = 1) ∧
        (backend.add_result = false →
          (rspamd_fuzzy_process_command session backend).reply.value = 404 ∧
          (rspamd_fuzzy_process_command session backend).reply.prob = 0)) ∧
      (session.cmd.cmd = .del →
        (rspamd_fuzzy_process_command session backend).backend_del_called = true ∧
        (backend.del_result = true →
          (rspamd_fuzzy_process_command session backend).reply.value = 0 ∧
          (rspamd_fuzzy_process_command session backend).reply.prob = 1) ∧
        (backend.del_result = false →
          (rspamd_fuzzy_process_command session backend).reply.value = 404 ∧
          (rspamd_fuzzy_process_command session backend).reply.prob = 0))) := by
  constructor
  · rintro ⟨ips, hips, hmem⟩
    have hcc := check_client_false_of_not_mem session ips hips hmem
    rcases h with h | h <;>
      simp [rspamd_fuzzy_process_command, h, hcc]
  · intro hcc
    constructor
    · intro hw
      rcases hb : backend.add_result with _ | _ <;>
        simp [rspamd_fuzzy_process_command, hw, hcc, hb]
    · intro hd
      rcases hb : backend.del_result with _ | _ <;>
        simp [rspamd_fuzzy_process_command, hd, hcc, hb]

theorem c5_fuzzy_update_auth_witness :
    (rspamd_fuzzy_process_command
        { legacy := false, addr := 9, update_ips := some [5],
          cmd := { cmd := .write, flag := 2, value := 1, tag := 0 } }
        { check_reply := { value := 0, flag := 0, prob := 0, tag := 0 },
          add_result := true, del_result := true }).reply.value = 403 ∧
    (rspamd_fuzzy_process_command
        { legacy := false, addr := 9, update_ips := some [5],
          cmd := { cmd := .write, flag := 2, value := 1, tag := 0 } }
        { check_reply := { value := 0, flag := 0, prob := 0, tag := 0 },
          add_result := true, del_result := true }).reply.prob = 0 ∧
    (rspamd_fuzzy_process_command
        { legacy := false, addr := 9, update_ips := some [5],
          cmd := { cmd := .write, flag := 2, value := 1, tag := 0 } }
        { check_reply := { value := 0, flag := 0, prob := 0, tag := 0 },
          add_result := true, del_result := true }).backend_add_called = false ∧
    (rspamd_fuzzy_process_command
        { legacy := false, addr := 9, update_ips := some [5],
          cmd := { cmd := .write, flag := 2, value := 1, tag := 0 } }
        { check_reply := { value := 0, flag := 0, prob := 0, tag := 0 },
          add_result := true, del_result := true }).backend_del_called = false :=
  (c5_fuzzy_update_auth _ _ (Or.inl rfl)).1 ⟨[5], rfl, by decide⟩

/-- Claim C10: with no configured `update_ips` map, every source address
passes the client check, and Write / Delete commands are forwarded to the
backend rather than rejected with 403. -/
theorem c10_no_update_ips (session : fuzzy_session)
    (backend : fuzzy_backend_oracle) (h : session.update_ips = none) :
    rspamd_fuzzy_check_client session = true ∧
    (session.cmd.cmd = .write →
      (rspamd_fuzzy_process_command session backend).backend_add_called = true ∧
      ¬((rspamd_fuzzy_process_command session backend).reply.value = 403)) ∧
    (session.cmd.cmd = .del →
      (rspamd_fuzzy_process_command session backend).backend_del_called = true ∧
      ¬((rspamd_fuzzy_process_command session backend).reply.value = 403)) := by
  have hcc : rspamd_fuzzy_check_client session = true := by
    unfold rspamd_fuzzy_check_client
    rw [h]
  refine ⟨hcc, fun hw => ?_, fun hd => ?_⟩
  · rcases hb : backend.add_result with _ | _ <;>
      simp [rspamd_fuzzy_process_command, hw, hcc, hb]
  · rcases hb : backend.del_result with _ | _ <;>
      simp [rspamd_fuzzy_process_command, hd, hcc, hb]

theorem c10_no_update_ips_witness :
    rspamd_fuzzy_check_client
      { legacy := false, addr := 77, update_ips := none,
        cmd := { cmd := .del, flag := 0, value := 0, tag := 0 } } = true ∧
    ((rspamd_fuzzy_process_command
        { legacy := false, addr := 77, update_ips := none,
          cmd := { cmd := .del, flag := 0, value := 0, tag := 0 } }
        { check_reply := { value := 0, flag := 0, prob := 0, tag := 0 },
          add_result := false, del_result := false }).backend_del_called = true ∧
      ¬((rspamd_fuzzy_process_command
          { legacy := false, addr := 77, update_ips := none,
            cmd := { cmd := .del, flag := 0, value := 0, tag := 0 } }
          { check_reply := { value := 0, flag := 0, prob := 0, tag := 0 },
            add_result := false, del_result := false }).reply.value = 403)) :=
  ⟨(c10_no_update_ips
      { legacy := false, addr := 77, update_ips := none,
        cmd := { cmd := .del, flag := 0, value := 0, tag := 0 } }
      { check_reply := { value := 0, flag := 0, prob := 0, tag := 0 },
        add_result := false, del_result := false } rfl).1,
    (c10_no_update_ips
      { legacy := false, addr := 77, update_ips := none,
        cmd := { cmd := .del, flag := 0, value := 0, tag := 0 } }
      { check_reply := { value := 0, flag := 0, prob := 0, tag := 0 },
        add_result := false, del_result := false } rfl).2.2 rfl⟩

/-- Claim C9 counterexample: a legacy Write with a successful reply
(`prob = 1`) serialises as the bare `OK` line, not as the
`OK <value> <flag>` line the claim prescribes for every legacy hit. -/
theorem c9_counterexample :
    rspamd_fuzzy_write_reply
        { legacy := true, addr := 0, update_ips := none,
          cmd := { cmd := .write, flag := 7, value := 3, tag := 1 } }
        { value := 0, flag := 7, prob := 1, tag := 1 } =
      .text ("OK" ++ CRLF) ∧
    ¬(rspamd_fuzzy_write_reply
        { legacy := true, addr := 0, update_ips := none,
          cmd := { cmd := .write, flag := 7, value := 3, tag := 1 } }
        { value := 0, flag := 7, prob := 1, tag := 1 } =
      .text ("OK " ++ toString (0 : Int) ++ " " ++ toString (7 : Int) ++ CRLF)) := by
  have h1 : rspamd_fuzzy_write_reply
      { legacy := true, addr := 0, update_ips := none,
        cmd := { cmd := .write, flag := 7, value := 3, tag := 1 } }
      { value := 0, flag := 7, prob := 1, tag := 1 } =
      .text ("OK" ++ CRLF) := by
    unfold rspamd_fuzzy_write_reply
    norm_num
    simp
  refine ⟨h1, ?_⟩
  rw [h1]
  intro h
  have h2 : ("OK" ++ CRLF) =
      ("OK " ++ toString (0 : Int) ++ " " ++ toString (7 : Int) ++ CRLF) := by
    injection h
  exact absurd h2 (by decide)

/-- Claim C9 (amended): a legacy reply with `prob > 0.5` serialises as
`OK <value> <flag>` only for Check commands and as a bare `OK` for Write and
Delete; `prob ≤ 0.5` serialises as `ERR`; every non-legacy request is
answered with the fixed-layout binary reply. -/
theorem c9_legacy_wire (session : fuzzy_session) (rep : rspamd_fuzzy_reply) :
    (session.legacy = true →
      (rep.prob > 1 / 2 →
        (session.cmd.cmd = .check →
          rspamd_fuzzy_write_reply session rep =
            .text ("OK " ++ toString rep.value ++ " " ++ toString rep.flag ++
              CRLF)) ∧
        (¬(session.cmd.cmd = .check) →
          rspamd_fuzzy_write_reply session rep = .text ("OK" ++ CRLF))) ∧
      (¬(rep.prob > 1 / 2) →
        rspamd_fuzzy_write_reply session rep = .text ("ERR" ++ CRLF))) ∧
    (session.legacy = false → rspamd_fuzzy_write_reply session rep = .binary rep) := by
  refine ⟨fun hleg => ⟨fun hp => ⟨fun hc => ?_, fun hc => ?_⟩, fun hp => ?_⟩,
    fun hleg => ?_⟩ <;>
  · unfold rspamd_fuzzy_write_reply
    split_ifs <;> simp_all

theorem c9_legacy_wire_witness :
    rspamd_fuzzy_write_reply
        { legacy := true, addr := 0, update_ips := none,
          cmd := { cmd := .check, flag := 7, value := 3, tag := 1 } }
        { value := 5, flag := 7, prob := 1, tag := 1 } =
      .text ("OK " ++ toString (5 : Int) ++ " " ++ toString (7 : Int) ++ CRLF) :=
  ((c9_legacy_wire _ _).1 rfl).1 (by norm_num) |>.1 rfl

/-! ## Redis connection pool cleanup scheduling -/

/-- Claim C8 counterexample: releasing the only active connection of an
element whose inactive queue will exceed `max_conns` schedules the *full*
timeout with half-amplitude jitter, while the claim (keyed on the inactive
queue length) prescribes the halved timeout with quarter-amplitude jitter:
the code consults the active queue length. -/
theorem c8_counterexample :
    rspamd_redis_pool_release_connection { timeout := 80, max_conns := 2 }
        { active_len := 1, inactive_len := 3 } false false false =
      .scheduled { active_len := 0, inactive_len := 4 } 80 40 ∧
    redis_cleanup_claim_delay { active_len := 0, inactive_len := 4 }
        { timeout := 80, max_conns := 2 } = (40, 10) ∧
    ¬(((80 : gdouble), (40 : gdouble)) = ((40 : gdouble), (10 : gdouble))) := by
  refine ⟨?_, ?_, ?_⟩
  · unfold rspamd_redis_pool_release_connection rspamd_redis_pool_schedule_timeout
    norm_num
  · unfold redis_cleanup_claim_delay
    norm_num
  · intro h
    have h1 : (80 : gdouble) = 40 := congrArg Prod.fst h
    norm_num at h1

/-- Claim C8 (amended): a non-fatal release of a healthy connection with no
queued callbacks moves it to the inactive queue and schedules the cleanup at
`timeout / 2` with ±25% jitter when the *active* queue length (after the
move) exceeds `max_conns`, and at `timeout` with ±50% jitter otherwise (the
pair is `(base delay, jitter amplitude)` as passed to
`rspamd_time_jitter`). -/
theorem c8_cleanup_schedule (pool : rspamd_redis_pool_cfg)
    (elt : rspamd_redis_pool_elt) (f e r : Bool) (hf : f = false)
    (he : e = false) (hr : r = false) :
    rspamd_redis_pool_release_connection pool elt f e r =
      .scheduled
        { active_len := elt.active_len - 1, inactive_len := elt.inactive_len + 1 }
        (if pool.max_conns < elt.active_len - 1 then pool.timeout / 2
          else pool.timeout)
        (if pool.max_conns < elt.active_len - 1 then pool.timeout / 2 / 4
          else pool.timeout / 2) := by
  subst hf he hr
  unfold rspamd_redis_pool_release_connection rspamd_redis_pool_schedule_timeout
  by_cases hc : pool.max_conns < elt.active_len - 1
  · simp [hc]
  · simp [hc]

theorem c8_cleanup_schedule_witness :
    rspamd_redis_pool_release_connection { timeout := 40, max_conns := 2 }
        { active_len := 5, inactive_len := 0 } false false false =
      .scheduled { active_len := 4, inactive_len := 1 } 20 5 := by
  have h := c8_cleanup_schedule { timeout := 40, max_conns := 2 }
    { active_len := 5, inactive_len := 0 } false false false rfl rfl rfl
  norm_num at h
  exact h

/-! ## Statistics learn path -/

theorem stat_learn_check_caches_of_ingore (l : List rspamd_learn_t) (b : Bool)
    (h : rspamd_learn_t.ingore ∈ l) : stat_learn_check_caches l b = none := by
  induction l generalizing b with
  | nil => cases h
  | cons r rest ih =>
    cases r with
    | ingore => rfl
    | unlearn =>
      have hm : rspamd_learn_t.ingore ∈ rest := by simpa using h
      simpa [stat_learn_check_caches] using ih true hm
    | ok =>
      have hm : rspamd_learn_t.ingore ∈ rest := by simpa using h
      simpa [stat_learn_check_caches] using ih b hm

theorem stat_learn_check_caches_of_no_ingore (l : List rspamd_learn_t) (b : Bool)
    (h : ¬(rspamd_learn_t.ingore ∈ l)) :
    stat_learn_check_caches l b =
      some (b || decide (rspamd_learn_t.unlearn ∈ l)) := by
  induction l generalizing b with
  | nil => simp [stat_learn_check_caches]
  | cons r rest ih =>
    have hr : ¬(rspamd_learn_t.ingore ∈ rest) := fun hm => h (by simp [hm])
    cases r with
    | ingore => exact absurd (by simp) h
    | unlearn =>
      rw [show stat_learn_check_caches (rspamd_learn_t.unlearn :: rest) b =
        stat_learn_check_caches rest true from rfl, ih true hr]
      simp
    | ok =>
      rw [show stat_learn_check_caches (rspamd_learn_t.ok :: rest) b =
        stat_learn_check_caches rest b from rfl, ih b hr]
      simp

/-- Claim C6: a learn request found in a learn cache under the same class
returns the 404 "already learned … ignore it" error before any classifier
or backend learn step, so the mutation trace is empty. -/
theorem c6_learn_cache_ignore (env : rspamd_learn_env) (spam : Bool)
    (h : rspamd_learn_t.ingore ∈ env.caches) :
    rspamd_stat_learn env spam =
      { result := .err (some (ignore_error env.message_id spam)), events := [] } ∧
    (ignore_error env.message_id spam).msg =
      "<" ++ env.message_id ++ "> has been already learned as " ++
        (if spam then "spam" else "ham") ++ ", ignore it" := by
  constructor
  · unfold rspamd_stat_learn
    rw [stat_learn_check_caches_of_ingore env.caches false h]
  · rfl

theorem c6_learn_cache_ignore_witness :
    rspamd_stat_learn
        ⟨"mid", [rspamd_learn_t.ingore], [⟨1, [⟨10, true⟩, ⟨11, false⟩], true, true⟩]⟩
        true =
      { result := .err (some (ignore_error "mid" true)), events := [] } ∧
    (ignore_error "mid" true).msg =
      "<mid> has been already learned as spam, ignore it" :=
  c6_learn_cache_ignore _ true (by decide)

theorem stat_learn_run_all_ok (u s : Bool) (cls : List rspamd_classifier_cfg)
    (evs : List stat_event)
    (h : ∀ cl ∈ cls, cl.init_ok = true ∧ cl.learn_ok = true) :
    stat_learn_run u s cls true evs =
      { result := .ok,
        events := evs ++ cls.flatMap (fun cl =>
          [stat_event.learn_classifier cl.id, stat_event.learn_tokens cl.id] ++
            stat_learn_statfile_events u s cl.statfiles) } := by
  induction cls generalizing evs with
  | nil => simp [stat_learn_run]
  | cons cl rest ih =>
    have hcl := h cl (by simp)
    have hrest : ∀ c ∈ rest, c.init_ok = true ∧ c.learn_ok = true :=
      fun c hc => h c (by simp [hc])
    rw [show stat_learn_run u s (cl :: rest) true evs =
      stat_learn_run u s rest true
        (evs ++ [stat_event.learn_classifier cl.id] ++
          [stat_event.learn_tokens cl.id] ++
          stat_learn_statfile_events u s cl.statfiles) by
        simp [stat_learn_run, hcl.1, hcl.2]]
    rw [ih _ hrest]
    simp

theorem stat_learn_statfile_events_unlearn (s : Bool)
    (sts : List rspamd_statfile_cfg) :
    stat_learn_statfile_events true s sts =
      sts.flatMap fun st =>
        [if st.is_spam = s then stat_event.inc_learns st.id
         else stat_event.dec_learns st.id,
         stat_event.finalize_learn st.id] := by
  unfold stat_learn_statfile_events
  congr 1
  funext st
  by_cases hs : st.is_spam = s
  · simp [hs]
  · simp [hs]

theorem mem_stat_preprocess (u s : Bool) (cls : List rspamd_classifier_cfg)
    (cl : rspamd_classifier_cfg) (h : cl ∈ stat_preprocess u s cls) :
    ∃ cl₀ ∈ cls, cl.init_ok = cl₀.init_ok ∧ cl.learn_ok = cl₀.learn_ok ∧
      cl.statfiles = stat_preprocess_statfiles u s cl₀.statfiles := by
  unfold stat_preprocess at h
  rw [List.mem_reverse] at h
  rcases List.mem_filterMap.1 h with ⟨cl₀, hmem, heq⟩
  refine ⟨cl₀, hmem, ?_⟩
  by_cases he : stat_preprocess_statfiles u s cl₀.statfiles = []
  · simp [he] at heq
  · simp only [he, if_neg] at heq
    cases heq
    exact ⟨rfl, rfl, rfl⟩

/-- Claim C7: a learn request cached under the opposite class runs in
unlearn mode: the runtime keeps both classes' statfiles, opposite-class
statfiles get `dec_learns` and same-class statfiles `inc_learns`, each
followed by `finalize_learn`, exactly as the claim's specification trace
prescribes. -/
theorem c7_unlearn_mode (env : rspamd_learn_env) (spam : Bool)
    (h1 : ¬(rspamd_learn_t.ingore ∈ env.caches))
    (h2 : rspamd_learn_t.unlearn ∈ env.caches)
    (h3 : ∀ cl ∈ env.classifiers, cl.init_ok = true ∧ cl.learn_ok = true)
    (h4 : ¬(stat_preprocess true spam env.classifiers = [])) :
    (rspamd_stat_learn env spam).result = .ok ∧
    (rspamd_stat_learn env spam).events =
      c7_unlearn_trace spam (stat_preprocess true spam env.classifiers) ∧
    (∀ cl ∈ stat_preprocess true spam env.classifiers, ∀ st ∈ cl.statfiles,
      (¬(st.is_spam = spam) →
        stat_event.dec_learns st.id ∈ (rspamd_stat_learn env spam).events) ∧
      (st.is_spam = spam →
        stat_event.inc_learns st.id ∈ (rspamd_stat_learn env spam).events)) := by
  have hcache : stat_learn_check_caches env.caches false = some true := by
    rw [stat_learn_check_caches_of_no_ingore env.caches false h1]
    simp [h2]
  have hpre : ∀ cl ∈ stat_preprocess true spam env.classifiers,
      cl.init_ok = true ∧ cl.learn_ok = true := by
    intro cl hcl
    rcases mem_stat_preprocess true spam env.classifiers cl hcl with
      ⟨cl₀, hmem, hio, hlo, _⟩
    exact ⟨hio.trans (h3 cl₀ hmem).1, hlo.trans (h3 cl₀ hmem).2⟩
  have hmain : rspamd_stat_learn env spam =
      { result := .ok,
        events := c7_unlearn_trace spam (stat_preprocess true spam env.classifiers) } := by
    rcases hp : stat_preprocess true spam env.classifiers with _ | ⟨cl, rest⟩
    · exact absurd hp h4
    · have hstart : rspamd_stat_learn env spam =
          stat_learn_run true spam (cl :: rest) false [] := by
        unfold rspamd_stat_learn
        rw [hcache]
        show (match stat_preprocess true spam env.classifiers with
          | [] => { result := learn_result.err none, events := [] }
          | cl :: rest => stat_learn_run true spam (cl :: rest) false [] : learn_outcome) = _
        rw [hp]
      rw [hstart]
      have hall : ∀ c ∈ cl :: rest, c.init_ok = true ∧ c.learn_ok = true := by
        rw [← hp]; exact hpre
      have hcl := hall cl (by simp)
      have hrest : ∀ c ∈ rest, c.init_ok = true ∧ c.learn_ok = true :=
        fun c hc => hall c (by simp [hc])
      rw [show stat_learn_run true spam (cl :: rest) false [] =
        stat_learn_run true spam rest true
          ([] ++ [stat_event.learn_classifier cl.id] ++
            [stat_event.learn_tokens cl.id] ++
            stat_learn_statfile_events true spam cl.statfiles) by
          simp [stat_learn_run, hcl.1, hcl.2]]
      rw [stat_learn_run_all_ok true spam rest _ hrest]
      unfold c7_unlearn_trace
      simp [stat_learn_statfile_events_unlearn, List.flatMap_cons]
  refine ⟨by rw [hmain], by rw [hmain], ?_⟩
  intro cl hcl st hst
  rw [hmain]
  constructor
  · intro hne
    refine List.mem_flatMap.2 ⟨cl, hcl, ?_⟩
    have : (if st.is_spam = spam then stat_event.inc_learns st.id
        else stat_event.dec_learns st.id) = stat_event.dec_learns st.id := by
      simp [hne]
    refine List.mem_append.2 (Or.inr (List.mem_flatMap.2 ⟨st, hst, ?_⟩))
    rw [this]
    simp
  · intro heq
    refine List.mem_flatMap.2 ⟨cl, hcl, ?_⟩
    have : (if st.is_spam = spam then stat_event.inc_learns st.id
        else stat_event.dec_learns st.id) = stat_event.inc_learns st.id := by
      simp [heq]
    refine List.mem_append.2 (Or.inr (List.mem_flatMap.2 ⟨st, hst, ?_⟩))
    rw [this]
    simp

theorem c7_unlearn_mode_witness :
    (rspamd_stat_learn
        ⟨"mid", [rspamd_learn_t.unlearn],
          [⟨1, [⟨10, true⟩, ⟨11, false⟩], true, true⟩]⟩ true).result = .ok ∧
    (rspamd_stat_learn
        ⟨"mid", [rspamd_learn_t.unlearn],
          [⟨1, [⟨10, true⟩, ⟨11, false⟩], true, true⟩]⟩ true).events =
      c7_unlearn_trace true
        (stat_preprocess true true
          [⟨1, [⟨10, true⟩, ⟨11, false⟩], true, true⟩]) :=
  ⟨(c7_unlearn_mode _ true (by decide) (by decide) (by decide) (by decide)).1,
    (c7_unlearn_mode _ true (by decide) (by decide) (by decide) (by decide)).2.1⟩

/-! ## Association-list lemmas -/

theorem alist_find_set_self {α β : Type} [DecidableEq α] (l : List (α × β))
    (k : α) (v : β) : alist_find (alist_set l k v) k = some v := by
  induction l with
  | nil => simp [alist_set, alist_find]
  | cons p rest ih =>
    obtain ⟨a, b⟩ := p
    by_cases h : k = a
    · simp [alist_set, alist_find, h]
    · simp [alist_set, alist_find, h, ih]

theorem alist_find_set_ne {α β : Type} [DecidableEq α] (l : List (α × β))
    (k k' : α) (v : β) (h : ¬(k' = k)) :
    alist_find (alist_set l k v) k' = alist_find l k' := by
  induction l with
  | nil => simp [alist_set, alist_find, h]
  | cons p rest ih =>
    obtain ⟨a, b⟩ := p
    by_cases hk : k = a
    · subst hk
      simp [alist_set, alist_find, h]
    · by_cases hk' : k' = a
      · simp [alist_set, alist_find, hk, hk']
      · simp [alist_set, alist_find, hk, hk', ih]

theorem alist_find_append {α β : Type} [DecidableEq α] (l₁ l₂ : List (α × β))
    (k : α) :
    alist_find (l₁ ++ l₂) k =
      (match alist_find l₁ k with
       | some v => some v
       | none => alist_find l₂ k) := by
  induction l₁ with
  | nil => simp [alist_find]
  | cons p rest ih =>
    obtain ⟨a, b⟩ := p
    by_cases h : k = a
    · simp [alist_find, h]
    · simp [alist_find, h, ih]

/-! ## Group cap (claims on `insert_metric_result`) -/

theorem insert_sym_groups_find_any (cfg : rspamd_task_cfg)
    (mres : rspamd_metric_result) (symbol : String)
    (g₀ : rspamd_symbols_group) :
    alist_find (insert_sym_groups cfg mres symbol) g₀ =
      alist_find mres.sym_groups g₀ ∨
    (alist_find mres.sym_groups g₀ = none ∧
      alist_find (insert_sym_groups cfg mres symbol) g₀ = some 0) := by
  unfold insert_sym_groups
  rcases hd : alist_find cfg.metric_symbols symbol with _ | d
  · simp only [hd]
    exact Or.inl trivial
  rcases hg : d.gr with _ | g
  · simp only [hd, hg]
    exact Or.inl trivial
  rcases hf : alist_find mres.sym_groups g with _ | q
  · simp only [hd, hg, hf]
    rcases hf0 : alist_find mres.sym_groups g₀ with _ | q₀
    · by_cases he : g₀ = g
      · subst he
        refine Or.inr ⟨rfl, ?_⟩
        rw [alist_find_append, hf0]
        simp [alist_find]
      · refine Or.inl ?_
        rw [alist_find_append, hf0]
        simp [alist_find, he, hf0]
    · refine Or.inl ?_
      rw [alist_find_append, hf0]
  · simp only [hd, hg, hf]
    exact Or.inl trivial

theorem insert_sym_groups_find_of_gr (cfg : rspamd_task_cfg)
    (mres : rspamd_metric_result) (symbol : String) (d : rspamd_symbol)
    (g : rspamd_symbols_group)
    (hd : alist_find cfg.metric_symbols symbol = some d) (hg : d.gr = some g) :
    alist_find (insert_sym_groups cfg mres symbol) g =
      some ((alist_find mres.sym_groups g).getD 0) := by
  unfold insert_sym_groups
  rcases hf : alist_find mres.sym_groups g with _ | q
  · simp only [hd, hg, hf]
    rw [alist_find_append, hf]
    simp [alist_find]
  · simp only [hd, hg, hf]
    rfl

theorem check_group_score_some_some (g : rspamd_symbols_group)
    (gs w : gdouble) :
    rspamd_check_group_score (some g) (some gs) w =
      if g.max_score > 0 ∧ w > 0 then
        if gs ≥ g.max_score then none
        else if gs + w > g.max_score then some (g.max_score - gs)
        else some w
      else some w := rfl

theorem check_group_score_commit_bound (g : rspamd_symbols_group)
    (gs w d2 : gdouble) (hmax : 0 < g.max_score) (hgs : gs ≤ g.max_score)
    (h : rspamd_check_group_score (some g) (some gs) w = some d2) :
    gs + d2 ≤ g.max_score := by
  rw [check_group_score_some_some] at h
  by_cases hw : 0 < w
  · rw [if_pos ⟨hmax, hw⟩] at h
    by_cases hcap : gs ≥ g.max_score
    · rw [if_pos hcap] at h
      cases h
    · rw [if_neg hcap] at h
      by_cases hover : gs + w > g.max_score
      · rw [if_pos hover] at h
        cases h
        linarith
      · rw [if_neg hover] at h
        cases h
        linarith
  · have : ¬(g.max_score > 0 ∧ w > 0) := fun hc => hw hc.2
    rw [if_neg this] at h
    cases h
    have : w ≤ 0 := le_of_not_lt hw
    linarith

theorem check_group_score_clip (g : rspamd_symbols_group) (gs w : gdouble)
    (hmax : 0 < g.max_score) (hw : 0 < w) (hlt : gs < g.max_score) :
    rspamd_check_group_score (some g) (some gs) w =
      some (min w (g.max_score - gs)) := by
  rw [check_group_score_some_some, if_pos ⟨hmax, hw⟩, if_neg (not_le.2 hlt)]
  by_cases hover : gs + w > g.max_score
  · rw [if_pos hover]
    have : min w (g.max_score - gs) = g.max_score - gs := by
      apply min_eq_right
      linarith
    rw [this]
  · rw [if_neg hover]
    have : min w (g.max_score - gs) = w := by
      apply min_eq_left
      push_neg at hover
      linarith
    rw [this]

theorem check_group_score_capped (g : rspamd_symbols_group) (gs w : gdouble)
    (hmax : 0 < g.max_score) (hw : 0 < w) (hcap : g.max_score ≤ gs) :
    rspamd_check_group_score (some g) (some gs) w = none := by
  rw [check_group_score_some_some, if_pos ⟨hmax, hw⟩, if_pos hcap]

/-- The shape of the group table after one insertion: either untouched
(beyond the lookup-or-insert of a zero accumulator), or one committed update
of the symbol's own group through `rspamd_check_group_score`. -/
theorem insert_sym_groups_shape (cfg : rspamd_task_cfg)
    (mres : rspamd_metric_result) (symbol : String) (flag : gdouble)
    (opt : Option String) (single : Bool) :
    (insert_metric_result cfg mres symbol flag opt single).sym_groups =
      insert_sym_groups cfg mres symbol ∨
    ∃ (d : rspamd_symbol) (g : rspamd_symbols_group) (gs dc d2 : gdouble),
      alist_find cfg.metric_symbols symbol = some d ∧ d.gr = some g ∧
      alist_find (insert_sym_groups cfg mres symbol) g = some gs ∧
      rspamd_check_group_score (some g) (some gs) dc = some d2 ∧
      (insert_metric_result cfg mres symbol flag opt single).sym_groups =
        alist_set (insert_sym_groups cfg mres symbol) g (gs + d2) := by
  rcases hsd : alist_find cfg.metric_symbols symbol with _ | d
  · left
    rcases hfs : alist_find mres.symbols symbol with _ | s <;>
      simp [insert_metric_result, hsd, hfs, rspamd_check_group_score] <;>
      split <;> simp
  rcases hgr : d.gr with _ | g
  · left
    rcases hfs : alist_find mres.symbols symbol with _ | s <;>
      simp [insert_metric_result, hsd, hgr, hfs, rspamd_check_group_score] <;>
      split <;> simp
  · have hgs0 := insert_sym_groups_find_of_gr cfg mres symbol d g hsd hgr
    rcases hfs : alist_find mres.symbols symbol with _ | s
    · rcases hck : rspamd_check_group_score (some g)
          (some ((alist_find mres.sym_groups g).getD 0))
          (apply_grow_factor mres.grow_factor cfg.metric_grow_factor
            (insert_weight cfg symbol flag)).1 with _ | w2
      · left
        simp [insert_metric_result, hsd, hgr, hfs, hgs0, hck]
      · right
        refine ⟨d, g, (alist_find mres.sym_groups g).getD 0, _, w2, rfl, hgr,
          hgs0, hck, ?_⟩
        simp [insert_metric_result, hsd, hgr, hfs, hgs0, hck]
    · by_cases hd0 : insert_dup_diff (insert_weight cfg symbol flag) s.score
          (insert_effective_single cfg (some d) s opt single) = 0
      · left
        simp [insert_metric_result, hsd, hgr, hfs, hgs0, hd0]
      · rcases hck : rspamd_check_group_score (some g)
            (some ((alist_find mres.sym_groups g).getD 0))
            (apply_grow_factor mres.grow_factor cfg.metric_grow_factor
              (insert_dup_diff (insert_weight cfg symbol flag) s.score
                (insert_effective_single cfg (some d) s opt single))).1
            with _ | d2
        · left
          simp [insert_metric_result, hsd, hgr, hfs, hgs0, hd0, hck]
        · right
          refine ⟨d, g, (alist_find mres.sym_groups g).getD 0, _, d2, rfl, hgr,
            hgs0, hck, ?_⟩
          simp [insert_metric_result, hsd, hgr, hfs, hgs0, hd0, hck]

/-- One insertion step preserves the cap on every group entry: an entry for
`g` after the insertion is bounded by `g.max_score` whenever every entry
before was. -/
theorem insert_group_le_step (cfg : rspamd_task_cfg)
    (mres : rspamd_metric_result) (symbol : String) (flag : gdouble)
    (opt : Option String) (single : Bool) (g : rspamd_symbols_group)
    (q : gdouble) (hmax : 0 < g.max_score)
    (hprev : ∀ q₀, alist_find mres.sym_groups g = some q₀ → q₀ ≤ g.max_score)
    (hq : alist_find
      (insert_metric_result cfg mres symbol flag opt single).sym_groups g =
        some q) :
    q ≤ g.max_score := by
  have hgrp1 : ∀ q₁,
      alist_find (insert_sym_groups cfg mres symbol) g = some q₁ →
      q₁ ≤ g.max_score := by
    intro q₁ h₁
    rcases insert_sym_groups_find_any cfg mres symbol g with he | ⟨_, he⟩
    · exact hprev q₁ (he ▸ h₁)
    · rw [he] at h₁
      cases h₁
      exact le_of_lt hmax
  rcases insert_sym_groups_shape cfg mres symbol flag opt single with
    hsh | ⟨d, g', gs, dc, d2, _, _, hgs, hck, hsh⟩
  · rw [hsh] at hq
    exact hgrp1 q hq
  · rw [hsh] at hq
    by_cases he : g = g'
    · subst he
      rw [alist_find_set_self] at hq
      cases hq
      exact check_group_score_commit_bound g gs dc d2 hmax (hgrp1 gs hgs) hck
    · rw [alist_find_set_ne _ _ _ _ he] at hq
      exact hgrp1 q hq

theorem apply_grow_factor_zero (c m : gdouble) :
    (apply_grow_factor c m 0).1 = 0 := by
  unfold apply_grow_factor
  simp

theorem apply_inserts_group_inv (cfg : rspamd_task_cfg) (ops : List insert_op) :
    ∀ (mres : rspamd_metric_result),
    (∀ (g : rspamd_symbols_group) (q : gdouble),
      alist_find mres.sym_groups g = some q → 0 < g.max_score →
      q ≤ g.max_score) →
    ∀ (g : rspamd_symbols_group) (q : gdouble),
      alist_find (apply_inserts cfg ops mres).sym_groups g = some q →
      0 < g.max_score → q ≤ g.max_score := by
  induction ops with
  | nil => exact fun mres h g q hq hmax => h g q hq hmax
  | cons op rest ih =>
    intro mres h g q hq hmax
    have hq' : alist_find (apply_inserts cfg rest
        (insert_metric_result cfg mres op.symbol op.flag op.opt
          op.single)).sym_groups g = some q := hq
    refine ih _ ?_ g q hq' hmax
    intro g' q' hq'' hmax'
    exact insert_group_le_step cfg mres op.symbol op.flag op.opt op.single g'
      q' hmax' (fun q₀ h₀ => h g' q₀ h₀ hmax') hq''

/-- Claim C1: for every group with `max_score > 0`, (i) over any sequence of
insertions from a fresh metric result the group's accumulated score never
exceeds `max_score`; (ii) a positive candidate contribution into a group at
the cap contributes exactly 0 to the metric score and to the group score,
and below the cap contributes exactly the candidate clipped to the remaining
headroom `max_score - group_score` (so the cap is never exceeded). -/
theorem c1_group_cap :
    (∀ (cfg : rspamd_task_cfg) (ops : List insert_op)
      (g : rspamd_symbols_group) (q : gdouble), 0 < g.max_score →
      alist_find
        (apply_inserts cfg ops rspamd_create_metric_result).sym_groups g =
        some q →
      q ≤ g.max_score) ∧
    (∀ (cfg : rspamd_task_cfg) (mres : rspamd_metric_result) (symbol : String)
      (flag : gdouble) (opt : Option String) (single : Bool)
      (d : rspamd_symbol) (g : rspamd_symbols_group) (gs : gdouble),
      alist_find cfg.metric_symbols symbol = some d → d.gr = some g →
      0 < g.max_score →
      alist_find (insert_sym_groups cfg mres symbol) g = some gs →
      0 < insert_candidate_diff cfg mres symbol flag opt single →
      ((g.max_score ≤ gs →
        (insert_metric_result cfg mres symbol flag opt single).score =
          mres.score ∧
        alist_find
          (insert_metric_result cfg mres symbol flag opt single).sym_groups g =
          some gs) ∧
       (gs < g.max_score →
        (insert_metric_result cfg mres symbol flag opt single).score =
          mres.score +
            min (insert_candidate_diff cfg mres symbol flag opt single)
              (g.max_score - gs) ∧
        alist_find
          (insert_metric_result cfg mres symbol flag opt single).sym_groups g =
          some (gs +
            min (insert_candidate_diff cfg mres symbol flag opt single)
              (g.max_score - gs)) ∧
        gs + min (insert_candidate_diff cfg mres symbol flag opt single)
            (g.max_score - gs) ≤ g.max_score))) := by
  constructor
  · intro cfg ops g q hmax hq
    refine apply_inserts_group_inv cfg ops rspamd_create_metric_result
      ?_ g q hq hmax
    intro g' q' hq' _
    simp [rspamd_create_metric_result, alist_find] at hq'
  · intro cfg mres symbol flag opt single d g gs hsd hgr hmax hgs hpos
    have hgs0 : alist_find (insert_sym_groups cfg mres symbol) g =
        some ((alist_find mres.sym_groups g).getD 0) :=
      insert_sym_groups_find_of_gr cfg mres symbol d g hsd hgr
    have hgseq : (alist_find mres.sym_groups g).getD 0 = gs := by
      rw [hgs0] at hgs
      cases hgs
      rfl
    rcases hfs : alist_find mres.symbols symbol with _ | s
    · -- first insertion of the symbol
      have hpos' : 0 < (apply_grow_factor mres.grow_factor
          cfg.metric_grow_factor (insert_weight cfg symbol flag)).1 := by
        simpa only [insert_candidate_diff, hfs] using hpos
      have hcand : insert_candidate_diff cfg mres symbol flag opt single =
          (apply_grow_factor mres.grow_factor cfg.metric_grow_factor
            (insert_weight cfg symbol flag)).1 := by
        simp only [insert_candidate_diff, hfs]
      constructor
      · intro hcap
        have hck : rspamd_check_group_score (some g) (some gs)
            ((apply_grow_factor mres.grow_factor cfg.metric_grow_factor
              (insert_weight cfg symbol flag)).1) = none :=
          check_group_score_capped g gs _ hmax hpos' hcap
        constructor
        · simp [insert_metric_result, hsd, hgr, hfs, hgs0, hgseq, hck]
        · simp [insert_metric_result, hsd, hgr, hfs, hgs0, hgseq, hck, hgs]
      · intro hlt
        have hck : rspamd_check_group_score (some g) (some gs)
            ((apply_grow_factor mres.grow_factor cfg.metric_grow_factor
              (insert_weight cfg symbol flag)).1) =
            some (min ((apply_grow_factor mres.grow_factor
              cfg.metric_grow_factor (insert_weight cfg symbol flag)).1)
              (g.max_score - gs)) :=
          check_group_score_clip g gs _ hmax hpos' hlt
        refine ⟨?_, ?_, ?_⟩
        · rw [hcand]
          simp [insert_metric_result, hsd, hgr, hfs, hgs0, hgseq, hck]
        · rw [hcand]
          simp [insert_metric_result, hsd, hgr, hfs, hgs0, hck,
            alist_find_set_self, hgseq]
        · have := min_le_right (insert_candidate_diff cfg mres symbol flag opt
            single) (g.max_score - gs)
          linarith
    · -- duplicate insertion of the symbol
      have hpos' : 0 < (apply_grow_factor mres.grow_factor
          cfg.metric_grow_factor
          (insert_dup_diff (insert_weight cfg symbol flag) s.score
            (insert_effective_single cfg (some d) s opt single))).1 := by
        simpa only [insert_candidate_diff, hfs, hsd] using hpos
      have hcand : insert_candidate_diff cfg mres symbol flag opt single =
          (apply_grow_factor mres.grow_factor cfg.metric_grow_factor
            (insert_dup_diff (insert_weight cfg symbol flag) s.score
              (insert_effective_single cfg (some d) s opt single))).1 := by
        simp only [insert_candidate_diff, hfs, hsd]
      have hd0 : ¬(insert_dup_diff (insert_weight cfg symbol flag) s.score
          (insert_effective_single cfg (some d) s opt single) = 0) := by
        intro h0
        rw [h0, apply_grow_factor_zero] at hpos'
        exact lt_irrefl 0 hpos'
      constructor
      · intro hcap
        have hck : rspamd_check_group_score (some g) (some gs)
            ((apply_grow_factor mres.grow_factor cfg.metric_grow_factor
              (insert_dup_diff (insert_weight cfg symbol flag) s.score
                (insert_effective_single cfg (some d) s opt single))).1) =
            none :=
          check_group_score_capped g gs _ hmax hpos' hcap
        constructor
        · simp [insert_metric_result, hsd, hgr, hfs, hgs0, hgseq, hck, hd0]
        · simp [insert_metric_result, hsd, hgr, hfs, hgs0, hgseq, hck, hd0, hgs]
      · intro hlt
        have hck : rspamd_check_group_score (some g) (some gs)
            ((apply_grow_factor mres.grow_factor cfg.metric_grow_factor
              (insert_dup_diff (insert_weight cfg symbol flag) s.score
                (insert_effective_single cfg (some d) s opt single))).1) =
            some (min ((apply_grow_factor mres.grow_factor
              cfg.metric_grow_factor
              (insert_dup_diff (insert_weight cfg symbol flag) s.score
                (insert_effective_single cfg (some d) s opt single))).1)
              (g.max_score - gs)) :=
          check_group_score_clip g gs _ hmax hpos' hlt
        refine ⟨?_, ?_, ?_⟩
        · rw [hcand]
          simp [insert_metric_result, hsd, hgr, hfs, hgs0, hgseq, hck, hd0]
        · rw [hcand]
          simp [insert_metric_result, hsd, hgr, hfs, hgs0, hck, hd0,
            alist_find_set_self, hgseq]
        · have := min_le_right (insert_candidate_diff cfg mres symbol flag opt
            single) (g.max_score - gs)
          linarith

theorem c1_group_cap_witness :
    (insert_metric_result
        ⟨[("A", ⟨5, some ⟨"g", 8⟩, 2, false⟩)], 0, [], 100⟩
        rspamd_create_metric_result "A" 1 none false).score =
      rspamd_create_metric_result.score +
        min (insert_candidate_diff
          ⟨[("A", ⟨5, some ⟨"g", 8⟩, 2, false⟩)], 0, [], 100⟩
          rspamd_create_metric_result "A" 1 none false)
          ((8 : gdouble) - 0) :=
  ((c1_group_cap.2 ⟨[("A", ⟨5, some ⟨"g", 8⟩, 2, false⟩)], 0, [], 100⟩
      rspamd_create_metric_result "A" 1 none false
      ⟨5, some ⟨"g", 8⟩, 2, false⟩ ⟨"g", 8⟩ 0 rfl rfl (by norm_num) rfl
      (by norm_num [insert_candidate_diff, insert_weight, apply_grow_factor,
        alist_find, rspamd_create_metric_result])).2 (by norm_num)).1

/-! ## Duplicate insertions and shot limits (claim C3) -/

theorem insert_effective_single_true (cfg : rspamd_task_cfg)
    (sdef : Option rspamd_symbol) (s : rspamd_symbol_result)
    (opt : Option String) :
    insert_effective_single cfg sdef s opt true = true := by
  unfold insert_effective_single
  simp

theorem insert_effective_single_shots (cfg : rspamd_task_cfg)
    (sdef : Option rspamd_symbol) (s : rspamd_symbol_result)
    (opt : Option String) (hms : 0 < insert_max_shots cfg sdef)
    (hns : insert_max_shots cfg sdef ≤ (s.nshots : Int)) :
    insert_effective_single cfg sdef s opt false = true := by
  unfold insert_effective_single
  by_cases hdup : insert_opt_dup s opt = true
  · simp [hdup]
  · simp [hdup, hms, hns]

theorem insert_effective_single_optdup (cfg : rspamd_task_cfg)
    (sdef : Option rspamd_symbol) (s : rspamd_symbol_result)
    (opt : Option String) (b : Bool) (hdup : insert_opt_dup s opt = true) :
    insert_effective_single cfg sdef s opt b = true := by
  unfold insert_effective_single
  rw [hdup]
  simp

/-- Claim C3: a duplicate insertion whose symbol already fired `max_shots`
times (the definition's `nshots`, or the configured default without one) is
forced to single mode, as is one whose option string is already recorded;
the duplicate score delta is the weight in multi-shot mode, and in single
mode `weight - current_score` exactly when the weight is strictly more
significant with the same sign, `0` otherwise. -/
theorem c3_duplicate_shots (cfg : rspamd_task_cfg)
    (mres : rspamd_metric_result) (symbol : String) (flag : gdouble)
    (opt : Option String) (s : rspamd_symbol_result)
    (hs : alist_find mres.symbols symbol = some s) :
    ((0 < insert_max_shots cfg (alist_find cfg.metric_symbols symbol) →
      insert_max_shots cfg (alist_find cfg.metric_symbols symbol) ≤
        (s.nshots : Int) →
      insert_metric_result cfg mres symbol flag opt false =
        insert_metric_result cfg mres symbol flag opt true) ∧
     (insert_opt_dup s opt = true →
      insert_metric_result cfg mres symbol flag opt false =
        insert_metric_result cfg mres symbol flag opt true)) ∧
    (∀ w sc : gdouble, insert_dup_diff w sc false = w) ∧
    (∀ w sc : gdouble, |sc| < |w| → ((sc < 0) ↔ (w < 0)) →
      insert_dup_diff w sc true = w - sc) ∧
    (∀ w sc : gdouble, ¬(|sc| < |w| ∧ ((sc < 0) ↔ (w < 0))) →
      insert_dup_diff w sc true = 0) := by
  refine ⟨⟨?_, ?_⟩, ?_, ?_, ?_⟩
  · intro hms hns
    have hse : insert_effective_single cfg (alist_find cfg.metric_symbols
        symbol) s opt false = insert_effective_single cfg
        (alist_find cfg.metric_symbols symbol) s opt true := by
      rw [insert_effective_single_shots cfg _ s opt hms hns,
        insert_effective_single_true]
    simp only [insert_metric_result, hs]
    rw [hse]
  · intro hdup
    have hse : insert_effective_single cfg (alist_find cfg.metric_symbols
        symbol) s opt false = insert_effective_single cfg
        (alist_find cfg.metric_symbols symbol) s opt true := by
      rw [insert_effective_single_optdup cfg _ s opt false hdup,
        insert_effective_single_optdup cfg _ s opt true hdup]
    simp only [insert_metric_result, hs]
    rw [hse]
  · intro w sc
    simp [insert_dup_diff]
  · intro w sc habs hsign
    have hsb : signbitq sc = signbitq w := decide_eq_decide.2 hsign
    simp [insert_dup_diff, habs, hsb]
  · intro w sc hneg
    have hc : ¬(|sc| < |w| ∧ signbitq sc = signbitq w) := by
      intro hcon
      exact hneg ⟨hcon.1, decide_eq_decide.1 hcon.2⟩
    simp [insert_dup_diff, hc]

theorem c2_loop_char (score : gdouble) (l : List (Option gdouble)) :
    ∀ (i : Nat) (m : gdouble) (sel : Option Nat),
    (rspamd_check_action_loop score l i m sel = sel ∧
      (∀ (k : Nat) (t : gdouble), l[k]? = some (some t) → t ≤ score → t ≤ m)) ∨
    (∃ (k : Nat) (t : gdouble), l[k]? = some (some t) ∧
      rspamd_check_action_loop score l i m sel = some (i + k) ∧
      m < t ∧ t ≤ score ∧
      (∀ (k' : Nat) (t' : gdouble),
        l[k']? = some (some t') → t' ≤ score → t' ≤ t) ∧
      (∀ k' : Nat, k' < k → ∀ t' : gdouble,
        l[k']? = some (some t') → t' ≤ score → t' < t)) := by
  induction l with
  | nil =>
    intro i m sel
    left
    refine ⟨rfl, ?_⟩
    intro k t hk
    simp at hk
  | cons hd tl ih =>
    intro i m sel
    rcases hd with _ | sc
    · have hstep : rspamd_check_action_loop score (none :: tl) i m sel =
        rspamd_check_action_loop score tl (i + 1) m sel := rfl
      rcases ih (i + 1) m sel with ⟨hres, hb⟩ |
        ⟨k, t, hget, hres, hm, hsc, hmax, hfirst⟩
      · left
        refine ⟨hstep.trans hres, ?_⟩
        intro k t hk ht
        rcases k with _ | k
        · simp at hk
        · exact hb k t (by simpa using hk) ht
      · right
        refine ⟨k + 1, t, by simpa using hget, ?_, hm, hsc, ?_, ?_⟩
        · rw [hstep, hres]
          congr 1
          omega
        · intro k' t' hk ht
          rcases k' with _ | k'
          · simp at hk
          · exact hmax k' t' (by simpa using hk) ht
        · intro k' hk' t' hk ht
          rcases k' with _ | k'
          · simp at hk
          · exact hfirst k' (by omega) t' (by simpa using hk) ht
    · by_cases hcond : score ≥ sc ∧ sc > m
      · have hstep : rspamd_check_action_loop score (some sc :: tl) i m sel =
          rspamd_check_action_loop score tl (i + 1) sc (some i) := by
          simp [rspamd_check_action_loop, hcond]
        rcases ih (i + 1) sc (some i) with ⟨hres, hb⟩ |
          ⟨k, t, hget, hres, hm, hsc2, hmax, hfirst⟩
        · right
          refine ⟨0, sc, by simp, ?_, hcond.2, hcond.1, ?_, ?_⟩
          · rw [hstep, hres]
            simp
          · intro k' t' hk ht
            rcases k' with _ | k'
            · have ht' : sc = t' := by simpa using hk
              subst ht'
              exact le_refl sc
            · exact hb k' t' (by simpa using hk) ht
          · intro k' hk' t' hk ht
            omega
        · right
          refine ⟨k + 1, t, by simpa using hget, ?_, lt_trans hcond.2 hm,
            hsc2, ?_, ?_⟩
          · rw [hstep, hres]
            congr 1
            omega
          · intro k' t' hk ht
            rcases k' with _ | k'
            · have ht' : sc = t' := by simpa using hk
              subst ht'
              exact le_of_lt hm
            · exact hmax k' t' (by simpa using hk) ht
          · intro k' hk' t' hk ht
            rcases k' with _ | k'
            · have ht' : sc = t' := by simpa using hk
              subst ht'
              exact hm
            · exact hfirst k' (by omega) t' (by simpa using hk) ht
      · have hstep : rspamd_check_action_loop score (some sc :: tl) i m sel =
          rspamd_check_action_loop score tl (i + 1) m sel := by
          simp [rspamd_check_action_loop, hcond]
        have hscle : sc ≤ score → sc ≤ m := by
          intro hs
          by_contra hgt
          exact hcond ⟨hs, lt_of_not_le hgt⟩
        rcases ih (i + 1) m sel with ⟨hres, hb⟩ |
          ⟨k, t, hget, hres, hm, hsc2, hmax, hfirst⟩
        · left
          refine ⟨hstep.trans hres, ?_⟩
          intro k t hk ht
          rcases k with _ | k
          · have ht' : sc = t := by simpa using hk
            subst ht'
            exact hscle ht
          · exact hb k t (by simpa using hk) ht
        · right
          refine ⟨k + 1, t, by simpa using hget, ?_, hm, hsc2, ?_, ?_⟩
          · rw [hstep, hres]
            congr 1
            omega
          · intro k' t' hk ht
            rcases k' with _ | k'
            · have ht' : sc = t' := by simpa using hk
              subst ht'
              exact le_of_lt (lt_of_le_of_lt (hscle ht) hm)
            · exact hmax k' t' (by simpa using hk) ht
          · intro k' hk' t' hk ht
            rcases k' with _ | k'
            · have ht' : sc = t' := by simpa using hk
              subst ht'
              exact lt_of_le_of_lt (hscle ht) hm
            · exact hfirst k' (by omega) t' (by simpa using hk) ht

/-- Claim C2 counterexample: with a single defined threshold of `0` (reject)
and score `5`, the claim's contract selects reject (its threshold is
defined, `≤ score` and the largest such), but the code returns no-action:
the loop's running maximum starts at `0`, so a threshold must be strictly
positive to be selectable. -/
theorem c2_counterexample :
    ¬ action_claim_spec [some 0, none, none, none, none, none] 5
      (rspamd_check_action_metric none
        [some 0, none, none, none, none, none] 5).1 := by
  have hres : (rspamd_check_action_metric none
      [some 0, none, none, none, none, none] 5).1 = none := by
    show rspamd_check_action_loop 5
      [some 0, none, none, none, none, none] 0 0 none = none
    norm_num [rspamd_check_action_loop]
  rw [hres]
  unfold action_claim_spec
  intro h
  exact (h 0 0 rfl) (by norm_num)

/-- Claim C2 (amended): with no pre-result, the selected action is the most
severe action whose threshold is defined, strictly positive, `≤ score` and
the largest among all defined thresholds `≤ score` (ties broken toward the
more severe action); if no action qualifies, no-action is returned and the
metric score is left unchanged. -/
theorem c2_action_selection (limits : List (Option gdouble))
    (score : gdouble) :
    action_claim_spec_pos limits score
      (rspamd_check_action_metric none limits score).1 ∧
    (rspamd_check_action_metric none limits score).2 = score := by
  refine ⟨?_, rfl⟩
  rcases c2_loop_char score limits 0 0 none with ⟨hres, hb⟩ |
    ⟨k, t, hget, hres, hm, hsc, hmax, hfirst⟩
  · have hr : (rspamd_check_action_metric none limits score).1 = none := hres
    rw [hr]
    unfold action_claim_spec_pos
    intro j t hjt hpos hle
    have := hb j t hjt hle
    linarith
  · have hr : (rspamd_check_action_metric none limits score).1 = some k := by
      show rspamd_check_action_loop score limits 0 0 none = some k
      simpa using hres
    rw [hr]
    exact ⟨t, hget, hm, hsc, hmax, hfirst⟩

theorem c2_action_selection_witness :
    action_claim_spec_pos [some 15, some 10, some 6, none] 11
      (rspamd_check_action_metric none [some 15, some 10, some 6, none] 11).1 ∧
    (rspamd_check_action_metric none [some 15, some 10, some 6, none] 11).2 =
      11 :=
  c2_action_selection [some 15, some 10, some 6, none] 11

theorem c3_duplicate_shots_witness :
    insert_metric_result
        ⟨[("A", ⟨5, none, 2, false⟩)], 0, [], 100⟩
        { score := 10, grow_factor := 0,
          symbols := [("A", ⟨10, none, 2, none⟩)], sym_groups := [] }
        "A" 1 none false =
      insert_metric_result
        ⟨[("A", ⟨5, none, 2, false⟩)], 0, [], 100⟩
        { score := 10, grow_factor := 0,
          symbols := [("A", ⟨10, none, 2, none⟩)], sym_groups := [] }
        "A" 1 none true ∧
    insert_dup_diff 5 10 false = 5 :=
  ⟨((c3_duplicate_shots ⟨[("A", ⟨5, none, 2, false⟩)], 0, [], 100⟩
      { score := 10, grow_factor := 0,
        symbols := [("A", ⟨10, none, 2, none⟩)], sym_groups := [] }
      "A" 1 none ⟨10, none, 2, none⟩ rfl).1.1 (by decide) (by decide)),
    ((c3_duplicate_shots ⟨[("A", ⟨5, none, 2, false⟩)], 0, [], 100⟩
      { score := 10, grow_factor := 0,
        symbols := [("A", ⟨10, none, 2, none⟩)], sym_groups := [] }
      "A" 1 none ⟨10, none, 2, none⟩ rfl).2.1 5 10)⟩

/-! ## Shingle voting (claim C4) -/

theorem c4_counterexample_eval :
    rspamd_fuzzy_redis_shingles_callback
      (List.replicate 17 (some 1) ++ List.replicate 15 (some 2)) =
      .miss := by decide

/-- Claim C4 counterexample: all 32 shingles resolve, digest 1 occurs 17
times (more than 16), so the claim prescribes a probable match with
`prob = 17/32`; but the scan starts its counter at the second sorted entry,
counts the run of the smallest digest one short (16), and the backend
replies a miss. -/
theorem c4_counterexample :
    ¬ c4_claim_spec (List.replicate 17 (some 1) ++ List.replicate 15 (some 2)) := by
  intro h
  unfold c4_claim_spec at h
  rw [if_pos (by decide)] at h
  rcases h with ⟨d, _, _, hout⟩
  rw [c4_counterexample_eval] at hout
  cases hout

theorem foldr_max_le (l : List Nat) (x : Nat) (hx : x ∈ l) :
    x ≤ l.foldr max 0 := by
  induction l with
  | nil => cases hx
  | cons a t ih =>
    rcases List.mem_cons.1 hx with rfl | hx'
    · exact le_max_left _ _
    · exact le_trans (ih hx') (le_max_right _ _)

theorem foldr_max_mem (l : List Nat) :
    l.foldr max 0 = 0 ∨ l.foldr max 0 ∈ l := by
  induction l with
  | nil => exact Or.inl rfl
  | cons a t ih =>
    show max a (t.foldr max 0) = 0 ∨ max a (t.foldr max 0) ∈ a :: t
    rcases le_total a (t.foldr max 0) with h | h
    · rw [max_eq_right h]
      rcases ih with h0 | hm
      · exact Or.inl h0
      · exact Or.inr (List.mem_cons_of_mem a hm)
    · rw [max_eq_left h]
      exact Or.inr (List.mem_cons_self a t)

theorem scanD_zeros (L : List Nat) : ∀ (j : Nat) (ref cf mf : Nat)
    (sel : Option Nat),
    scanD (List.replicate j 0 ++ L) ref cf mf sel = scanD L ref cf mf sel := by
  intro j
  induction j with
  | zero => intro ref cf mf sel; rfl
  | succ n ih =>
    intro ref cf mf sel
    rw [List.replicate_succ, List.cons_append]
    rw [show scanD (0 :: (List.replicate n 0 ++ L)) ref cf mf sel =
      scanD (List.replicate n 0 ++ L) ref cf mf sel by simp [scanD]]
    exact ih ref cf mf sel

theorem scanD_replicate (d : Nat) (hd : ¬(d = 0)) : ∀ (k : Nat) (L : List Nat)
    (cf mf : Nat) (sel : Option Nat),
    scanD (List.replicate k d ++ L) d cf mf sel =
      scanD L d (cf + k)
        (if 0 < k ∧ mf < cf + k then cf + k else mf)
        (if 0 < k ∧ mf < cf + k then some d else sel) := by
  intro k
  induction k with
  | zero =>
    intro L cf mf sel
    simp
  | succ n ih =>
    intro L cf mf sel
    rw [List.replicate_succ, List.cons_append]
    by_cases hmf : cf + 1 > mf
    · rw [show scanD (d :: (List.replicate n d ++ L)) d cf mf sel =
        scanD (List.replicate n d ++ L) d (cf + 1) (cf + 1) (some d) by
        simp [scanD, hd, hmf]]
      rw [ih]
      have harg2 : (if 0 < n ∧ cf + 1 < cf + 1 + n then cf + 1 + n else cf + 1)
          = (if 0 < n + 1 ∧ mf < cf + (n + 1) then cf + (n + 1) else mf) := by
        split_ifs <;> omega
      have harg3 : (if 0 < n ∧ cf + 1 < cf + 1 + n then some d else some d)
          = (if 0 < n + 1 ∧ mf < cf + (n + 1) then some d else sel) := by
        split_ifs <;> first | rfl | omega
      have harg1 : cf + 1 + n = cf + (n + 1) := by omega
      rw [harg2, harg3, harg1]
    · rw [show scanD (d :: (List.replicate n d ++ L)) d cf mf sel =
        scanD (List.replicate n d ++ L) d (cf + 1) mf sel by
        simp [scanD, hd, hmf]]
      rw [ih]
      have harg2 : (if 0 < n ∧ mf < cf + 1 + n then cf + 1 + n else mf)
          = (if 0 < n + 1 ∧ mf < cf + (n + 1) then cf + (n + 1) else mf) := by
        split_ifs <;> omega
      have harg3 : (if 0 < n ∧ mf < cf + 1 + n then some d else sel)
          = (if 0 < n + 1 ∧ mf < cf + (n + 1) then some d else sel) := by
        split_ifs <;> first | rfl | omega
      have harg1 : cf + 1 + n = cf + (n + 1) := by omega
      rw [harg2, harg3, harg1]

theorem shingles_of_reply_eq_map (reply : List (Option Nat))
    (hpos : ∀ d ∈ resolved_digests reply, 0 < d) :
    shingles_of_reply reply =
      (reply.map (fun e => e.getD 0)).map mk_helper := by
  induction reply with
  | nil => rfl
  | cons e rest ih =>
    have hrest : ∀ d ∈ resolved_digests rest, 0 < d := by
      intro d hd
      apply hpos
      rcases e with _ | v <;>
        simp_all [resolved_digests, List.filterMap_cons]
    rcases e with _ | v
    · have h1 : shingles_of_reply (none :: rest) =
          ({ digest := 0, found := false } : shingles_helper) ::
            shingles_of_reply rest := rfl
      have h2 : ((none :: rest).map (fun e => e.getD 0)).map mk_helper =
          mk_helper 0 :: (rest.map (fun e => e.getD 0)).map mk_helper := rfl
      rw [h1, h2, ih hrest]
      rfl
    · have hv : 0 < v := hpos v (by simp [resolved_digests, List.filterMap_cons])
      have hv' : ¬(v = 0) := by omega
      have h1 : shingles_of_reply (some v :: rest) =
          ({ digest := v, found := true } : shingles_helper) ::
            shingles_of_reply rest := rfl
      have h2 : ((some v :: rest).map (fun e => e.getD 0)).map mk_helper =
          mk_helper v :: (rest.map (fun e => e.getD 0)).map mk_helper := rfl
      rw [h1, h2, ih hrest, show mk_helper v =
        ({ digest := v, found := true } : shingles_helper) by
        simp [mk_helper, hv']]

theorem orderedInsert_map_mk (x : Nat) (l : List Nat) :
    List.orderedInsert (fun a b : shingles_helper => a.digest ≤ b.digest)
      (mk_helper x) (l.map mk_helper) =
      (List.orderedInsert (· ≤ ·) x l).map mk_helper := by
  induction l with
  | nil => rfl
  | cons b t ih =>
    have hstep : List.orderedInsert
        (fun a b : shingles_helper => a.digest ≤ b.digest) (mk_helper x)
        ((b :: t).map mk_helper) =
        if x ≤ b then mk_helper x :: mk_helper b :: t.map mk_helper
        else mk_helper b :: List.orderedInsert
          (fun a b : shingles_helper => a.digest ≤ b.digest) (mk_helper x)
          (t.map mk_helper) := rfl
    have hstep2 : List.orderedInsert (· ≤ ·) x (b :: t) =
        if x ≤ b then x :: b :: t
        else b :: List.orderedInsert (· ≤ ·) x t := rfl
    rw [hstep, hstep2]
    by_cases h : x ≤ b
    · rw [if_pos h, if_pos h]
      rfl
    · rw [if_neg h, if_neg h, List.map_cons, ih]

theorem insertionSort_map_mk (l : List Nat) :
    List.insertionSort (fun a b : shingles_helper => a.digest ≤ b.digest)
      (l.map mk_helper) =
      (List.insertionSort (· ≤ ·) l).map mk_helper := by
  induction l with
  | nil => rfl
  | cons a t ih => simp [List.insertionSort, ih, orderedInsert_map_mk]

theorem shingles_scan_map (l : List Nat) : ∀ (p cf mf : Nat)
    (sel : Option Nat),
    shingles_scan (l.map mk_helper) (mk_helper p) cf mf
      (sel.map mk_helper) =
      ((scanD l p cf mf sel).1, (scanD l p cf mf sel).2.map mk_helper) := by
  induction l with
  | nil => intro p cf mf sel; rfl
  | cons d t ih =>
    intro p cf mf sel
    rw [List.map_cons]
    by_cases h0 : d = 0
    · subst h0
      rw [show shingles_scan (mk_helper 0 :: t.map mk_helper) (mk_helper p)
        cf mf (sel.map mk_helper) =
        shingles_scan (t.map mk_helper) (mk_helper p) cf mf
          (sel.map mk_helper) by simp [shingles_scan, mk_helper]]
      rw [ih p cf mf sel]
      rw [show scanD (0 :: t) p cf mf sel = scanD t p cf mf sel by
        simp [scanD]]
    · by_cases hp : d = p
      · subst hp
        by_cases hcf : cf + 1 > mf
        · rw [show shingles_scan (mk_helper d :: t.map mk_helper)
            (mk_helper d) cf mf (sel.map mk_helper) =
            shingles_scan (t.map mk_helper) (mk_helper d) (cf + 1) (cf + 1)
              ((some d).map mk_helper) by
            simp [shingles_scan, mk_helper, h0, hcf]]
          rw [ih d (cf + 1) (cf + 1) (some d)]
          rw [show scanD (d :: t) d cf mf sel =
            scanD t d (cf + 1) (cf + 1) (some d) by simp [scanD, h0, hcf]]
        · rw [show shingles_scan (mk_helper d :: t.map mk_helper)
            (mk_helper d) cf mf (sel.map mk_helper) =
            shingles_scan (t.map mk_helper) (mk_helper d) (cf + 1) mf
              (sel.map mk_helper) by
            simp [shingles_scan, mk_helper, h0, hcf]]
          rw [ih d (cf + 1) mf sel]
          rw [show scanD (d :: t) d cf mf sel =
            scanD t d (cf + 1) mf sel by simp [scanD, h0, hcf]]
      · rw [show shingles_scan (mk_helper d :: t.map mk_helper) (mk_helper p)
          cf mf (sel.map mk_helper) =
          shingles_scan (t.map mk_helper) (mk_helper d) 1 mf
            (sel.map mk_helper) by simp [shingles_scan, mk_helper, h0, hp]]
        rw [ih d 1 mf sel]
        rw [show scanD (d :: t) p cf mf sel = scanD t d 1 mf sel by
          simp [scanD, h0, hp]]

theorem sorted_run_decomp : ∀ (T : List Nat) (d : Nat),
    (d :: T).Sorted (· ≤ ·) →
    ∃ S', d :: T = List.replicate ((d :: T).count d) d ++ S' ∧
      S'.Sorted (· ≤ ·) ∧ (∀ x ∈ S', d < x) := by
  intro T
  induction T with
  | nil =>
    intro d _
    refine ⟨[], ?_, List.sorted_nil, by simp⟩
    simp
  | cons b T' ih =>
    intro d hsort
    rw [List.sorted_cons] at hsort
    obtain ⟨hdb, hsort'⟩ := hsort
    by_cases hbd : b = d
    · subst hbd
      obtain ⟨S', heq, hs, hgt⟩ := ih b hsort'
      refine ⟨S', ?_, hs, hgt⟩
      rw [show (b :: b :: T').count b = (b :: T').count b + 1 from
        List.count_cons_self b (b :: T')]
      rw [List.replicate_succ, List.cons_append, ← heq]
    · have hdlt : d < b :=
        lt_of_le_of_ne (hdb b (List.mem_cons_self b T')) (fun h => hbd h.symm)
      have hnotmem : ¬(d ∈ b :: T') := by
        intro hm
        rcases List.mem_cons.1 hm with heq' | hm'
        · exact hbd heq'.symm
        · have hble := (List.sorted_cons.1 hsort').1 d hm'
          omega
      have hcount : (d :: b :: T').count d = 1 := by
        rw [List.count_cons_self, List.count_eq_zero.2 hnotmem]
      refine ⟨b :: T', ?_, hsort', ?_⟩
      · rw [hcount]
        rfl
      · intro x hx
        rcases List.mem_cons.1 hx with heq' | hx'
        · omega
        · have := (List.sorted_cons.1 hsort').1 x hx'
          omega

/-- The duplicate-counting scan on a sorted list of positive digests,
entered with a reference strictly below every element: it returns the state
unchanged when no digest occurring at least twice has a count above the
running maximum, and otherwise returns the maximal such count together with
a digest attaining it. -/
theorem scanD_sorted_char : ∀ (n : Nat) (S : List Nat), S.length ≤ n →
    S.Sorted (· ≤ ·) → (∀ x ∈ S, 0 < x) →
    ∀ (ref cf mf : Nat) (sel : Option Nat), (∀ x ∈ S, ref < x) →
    ((∀ d ∈ S, 2 ≤ S.count d → S.count d ≤ mf) →
      scanD S ref cf mf sel = (mf, sel)) ∧
    (∀ d0, d0 ∈ S → 2 ≤ S.count d0 → mf < S.count d0 →
      ∃ e, e ∈ S ∧ 2 ≤ S.count e ∧ mf < S.count e ∧
        scanD S ref cf mf sel = (S.count e, some e) ∧
        (∀ x ∈ S, S.count x ≤ S.count e ∨ S.count x ≤ mf)) := by
  intro n
  induction n with
  | zero =>
    intro S hlen _ _ ref cf mf sel _
    have hS : S = [] := List.length_eq_zero.1 (Nat.le_zero.1 hlen)
    subst hS
    exact ⟨fun _ => rfl, fun d0 h => absurd h (List.not_mem_nil d0)⟩
  | succ n ih =>
    intro S hlen hsort hpos ref cf mf sel href
    rcases S with _ | ⟨d, T⟩
    · exact ⟨fun _ => rfl, fun d0 h => absurd h (List.not_mem_nil d0)⟩
    obtain ⟨S', heq, hs', hgt⟩ := sorted_run_decomp T d hsort
    set k := (d :: T).count d with hkdef
    have hk1 : 1 ≤ k := by
      simp only [hkdef, List.count_cons_self]
      omega
    have hd0 : ¬(d = 0) := by
      have := hpos d (List.mem_cons_self d T)
      omega
    have hrefd : ref < d := href d (List.mem_cons_self d T)
    have hlen' : S'.length ≤ n := by
      have hlq := congrArg List.length heq
      rw [List.length_append, List.length_replicate] at hlq
      simp only [List.length_cons] at hlq hlen
      omega
    have hposS' : ∀ x ∈ S', 0 < x := by
      intro x hx
      refine hpos x ?_
      rw [heq]
      exact List.mem_append_right _ hx
    have hdS' : ¬(d ∈ S') := fun hm => lt_irrefl d (hgt d hm)
    have hcountS' : ∀ x : Nat, ¬(x = d) → (d :: T).count x = S'.count x := by
      intro x hx
      rw [heq, List.count_append, List.count_replicate]
      have hx' : ¬(d = x) := fun h => hx h.symm
      simp [hx, hx']
    have hmemS : ∀ x : Nat, x ∈ d :: T ↔ (x = d ∨ x ∈ S') := by
      intro x
      rw [heq, List.mem_append, List.mem_replicate]
      constructor
      · rintro (⟨_, h⟩ | h)
        exacts [Or.inl h, Or.inr h]
      · rintro (h | h)
        · exact Or.inl ⟨by omega, h⟩
        · exact Or.inr h
    have hT : T = List.replicate (k - 1) d ++ S' := by
      have heq2 := heq
      rw [show k = (k - 1) + 1 by omega, List.replicate_succ,
        List.cons_append] at heq2
      injection heq2
    have hstep : scanD (d :: T) ref cf mf sel = scanD T d 1 mf sel := by
      have hne : ¬(d = ref) := by omega
      simp [scanD, hd0, hne]
    have hchain : scanD (d :: T) ref cf mf sel =
        scanD S' d k (if 2 ≤ k ∧ mf < k then k else mf)
          (if 2 ≤ k ∧ mf < k then some d else sel) := by
      rw [hstep, hT, scanD_replicate d hd0]
      have e2 : (if 0 < k - 1 ∧ mf < 1 + (k - 1) then 1 + (k - 1) else mf) =
          (if 2 ≤ k ∧ mf < k then k else mf) := by
        split_ifs <;> omega
      have e3 : (if 0 < k - 1 ∧ mf < 1 + (k - 1) then some d else sel) =
          (if 2 ≤ k ∧ mf < k then some d else sel) := by
        split_ifs <;> first | rfl | omega
      have e1 : 1 + (k - 1) = k := by omega
      rw [e2, e3, e1]
    by_cases hbig : 2 ≤ k ∧ mf < k
    · rw [if_pos hbig, if_pos hbig] at hchain
      constructor
      · intro hall
        have := hall d (List.mem_cons_self d T) (by omega)
        omega
      · intro d0 _ _ _
        by_cases hS' : ∀ x ∈ S', 2 ≤ S'.count x → S'.count x ≤ k
        · have hres := (ih S' hlen' hs' hposS' d k k (some d) hgt).1 hS'
          refine ⟨d, List.mem_cons_self d T, by omega, by omega, ?_, ?_⟩
          · rw [hchain, hres, ← hkdef]
          · intro x hx
            rcases (hmemS x).1 hx with hxd | hxS
            · subst hxd
              exact Or.inl (le_refl _)
            · left
              rw [hcountS' x (fun h => hdS' (h ▸ hxS)), ← hkdef]
              by_cases h2 : 2 ≤ S'.count x
              · exact hS' x hxS h2
              · omega
        · push_neg at hS'
          obtain ⟨x0, hx0S, hx02, hx0k⟩ := hS'
          obtain ⟨e, heS, he2, hek, hres, hbound⟩ :=
            (ih S' hlen' hs' hposS' d k k (some d) hgt).2 x0 hx0S hx02 hx0k
          have hed : ¬(e = d) := fun h => hdS' (h ▸ heS)
          refine ⟨e, (hmemS e).2 (Or.inr heS), ?_, ?_, ?_, ?_⟩
          · rw [hcountS' e hed]
            exact he2
          · rw [hcountS' e hed]
            omega
          · rw [hchain, hres, hcountS' e hed]
          · intro x hx
            rcases (hmemS x).1 hx with hxd | hxS
            · subst hxd
              left
              rw [hcountS' e hed, ← hkdef]
              omega
            · have hxd' : ¬(x = d) := fun h => hdS' (h ▸ hxS)
              rw [hcountS' x hxd', hcountS' e hed]
              rcases hbound x hxS with h | h
              · exact Or.inl h
              · exact Or.inl (by omega)
    · rw [if_neg hbig, if_neg hbig] at hchain
      have hknot : k ≤ 1 ∨ k ≤ mf := by
        by_cases h2 : 2 ≤ k
        · right
          rcases not_and_or.1 hbig with h | h
          · omega
          · omega
        · left
          omega
      constructor
      · intro hall
        have hallS' : ∀ x ∈ S', 2 ≤ S'.count x → S'.count x ≤ mf := by
          intro x hxS h2
          have hxd : ¬(x = d) := fun h => hdS' (h ▸ hxS)
          have := hall x ((hmemS x).2 (Or.inr hxS))
          rw [hcountS' x hxd] at this
          exact this h2
        have hres := (ih S' hlen' hs' hposS' d k mf sel hgt).1 hallS'
        rw [hchain, hres]
      · intro d0 hd0mem h2 hmf
        rcases (hmemS d0).1 hd0mem with hxd | hxS
        · subst hxd
          rw [← hkdef] at h2 hmf
          omega
        · have hxd' : ¬(d0 = d) := fun h => hdS' (h ▸ hxS)
          rw [hcountS' d0 hxd'] at h2 hmf
          obtain ⟨e, heS, he2, hek, hres, hbound⟩ :=
            (ih S' hlen' hs' hposS' d k mf sel hgt).2 d0 hxS h2 hmf
          have hed : ¬(e = d) := fun h => hdS' (h ▸ heS)
          refine ⟨e, (hmemS e).2 (Or.inr heS), ?_, ?_, ?_, ?_⟩
          · rw [hcountS' e hed]
            exact he2
          · rw [hcountS' e hed]
            exact hek
          · rw [hchain, hres, hcountS' e hed]
          · intro x hx
            rcases (hmemS x).1 hx with hxd2 | hxS2
            · subst hxd2
              rw [hcountS' e hed, ← hkdef]
              rcases hknot with h | h
              · left
                omega
              · right
                exact h
            · have hxd2' : ¬(x = d) := fun h => hdS' (h ▸ hxS2)
              rw [hcountS' x hxd2', hcountS' e hed]
              exact hbound x hxS2

theorem run_tail_eq (d : Nat) (T S' : List Nat) (k : Nat) (hk : 1 ≤ k)
    (heq : d :: T = List.replicate k d ++ S') :
    T = List.replicate (k - 1) d ++ S' := by
  rw [show k = (k - 1) + 1 by omega, List.replicate_succ, List.cons_append] at heq
  have h2 := congrArg List.tail heq
  simpa using h2

theorem filter_replicate_zero (n : Nat) :
    (List.replicate n 0).filter (fun d => decide (d ≠ 0)) = [] := by
  induction n with
  | zero => rfl
  | succ m ih => simp [List.replicate_succ, ih]

theorem resolved_eq_filter (reply : List (Option Nat)) :
    (∀ d ∈ resolved_digests reply, 0 < d) →
    (reply.map fun e => e.getD 0).filter (fun d => decide (d ≠ 0)) =
      resolved_digests reply := by
  induction reply with
  | nil => intro _; rfl
  | cons e rest ih =>
    intro hpos
    rcases e with _ | v
    · have hrest : ∀ d ∈ resolved_digests rest, 0 < d := fun d hd => hpos d hd
      rw [List.map_cons, show ((none : Option Nat).getD 0) = 0 from rfl,
        List.filter_cons]
      rw [if_neg (by decide)]
      rw [ih hrest]
      simp [resolved_digests, List.filterMap_cons]
    · have hrest : ∀ d ∈ resolved_digests rest, 0 < d := fun d hd =>
        hpos d (List.mem_cons_of_mem v hd)
      have hv : 0 < v :=
        hpos v (List.mem_cons_self v (resolved_digests rest))
      rw [List.map_cons, show ((some v).getD 0) = v from rfl, List.filter_cons]
      rw [if_pos (decide_eq_true (Nat.pos_iff_ne_zero.1 hv))]
      rw [ih hrest]
      rfl

theorem foldr_max_eq (l : List Nat) (v : Nat) (hv : v ∈ l)
    (hle : ∀ x ∈ l, x ≤ v) : l.foldr max 0 = v := by
  refine le_antisymm ?_ (foldr_max_le l v hv)
  rcases foldr_max_mem l with h0 | hm
  · rw [h0]
    exact Nat.zero_le v
  · exact hle _ hm

theorem foldr_max_le_bound (l : List Nat) (v : Nat) (hle : ∀ x ∈ l, x ≤ v) :
    l.foldr max 0 ≤ v := by
  rcases foldr_max_mem l with h0 | hm
  · rw [h0]
    exact Nat.zero_le v
  · exact hle _ hm

theorem foldl_min_le_init (t : List Nat) : ∀ c : Nat, t.foldl min c ≤ c := by
  induction t with
  | nil => intro c; exact le_refl c
  | cons y t' ih =>
    intro c
    show t'.foldl min (min c y) ≤ c
    exact le_trans (ih (min c y)) (min_le_left _ _)

theorem foldl_min_le_mem (t : List Nat) :
    ∀ (c x : Nat), x ∈ t → t.foldl min c ≤ x := by
  induction t with
  | nil => intro c x hx; cases hx
  | cons y t' ih =>
    intro c x hx
    show t'.foldl min (min c y) ≤ x
    rcases List.mem_cons.1 hx with rfl | hx'
    · exact le_trans (foldl_min_le_init t' (min c x)) (min_le_right _ _)
    · exact ih (min c y) x hx'

theorem le_foldl_min (t : List Nat) : ∀ (c a : Nat), a ≤ c → (∀ x ∈ t, a ≤ x) →
    a ≤ t.foldl min c := by
  induction t with
  | nil => intro c a hac _; exact hac
  | cons y t' ih =>
    intro c a hac hall
    show a ≤ t'.foldl min (min c y)
    refine ih (min c y) a (le_min hac (hall y (List.mem_cons_self y t'))) ?_
    intro x hx
    exact hall x (List.mem_cons_of_mem y hx)

theorem min_opt_eq_of_le (l : List Nat) (a : Nat) (ha : a ∈ l)
    (hle : ∀ b ∈ l, a ≤ b) : l.min? = some a := by
  cases l with
  | nil => cases ha
  | cons c t =>
    show some (t.foldl min c) = some a
    have h1 : t.foldl min c ≤ a := by
      rcases List.mem_cons.1 ha with rfl | ha'
      · exact foldl_min_le_init t _
      · exact foldl_min_le_mem t c a ha'
    have h2 : a ≤ t.foldl min c :=
      le_foldl_min t c a (hle c (List.mem_cons_self c t))
        (fun x hx => hle x (List.mem_cons_of_mem c hx))
    rw [le_antisymm h1 h2]

/-- The shingles callback on a full reply with positive resolved digests,
rewritten through the digest-level scan `scanD` over the insertion-sorted
digest list. -/
theorem shingles_callback_reduce (reply : List (Option Nat))
    (hlen : reply.length = RSPAMD_SHINGLE_SIZE)
    (hpos : ∀ d ∈ resolved_digests reply, 0 < d)
    (d₁ : Nat) (T : List Nat)
    (hDs : List.insertionSort (· ≤ ·) (reply.map fun e => e.getD 0) = d₁ :: T) :
    rspamd_fuzzy_redis_shingles_callback reply =
      if RSPAMD_SHINGLE_SIZE / 2 < (resolved_digests reply).length then
        (if RSPAMD_SHINGLE_SIZE / 2 < (scanD T d₁ 0 0 none).1 then
          match (scanD T d₁ 0 0 none).2 with
          | some e => shingles_outcome.recheck e
              (((scanD T d₁ 0 0 none).1 : gdouble) /
                (RSPAMD_SHINGLE_SIZE : gdouble))
          | none => shingles_outcome.miss
        else shingles_outcome.miss)
      else shingles_outcome.miss := by
  have hfound : ((shingles_of_reply reply).filter (fun h => h.found)).length =
      (resolved_digests reply).length := by
    rw [shingles_of_reply_eq_map reply hpos, List.filter_map, List.length_map]
    rw [show ((fun h : shingles_helper => h.found) ∘ mk_helper) =
      (fun d : Nat => decide (d ≠ 0)) from rfl]
    rw [resolved_eq_filter reply hpos]
  have hsort : List.insertionSort
      (fun a b : shingles_helper => a.digest ≤ b.digest)
      (shingles_of_reply reply) = mk_helper d₁ :: T.map mk_helper := by
    rw [shingles_of_reply_eq_map reply hpos, insertionSort_map_mk, hDs,
      List.map_cons]
  have hscan : shingles_scan (T.map mk_helper) (mk_helper d₁) 0 0 none =
      ((scanD T d₁ 0 0 none).1, (scanD T d₁ 0 0 none).2.map mk_helper) :=
    shingles_scan_map T d₁ 0 0 none
  unfold rspamd_fuzzy_redis_shingles_callback
  rw [if_pos hlen]
  simp only [hfound, hsort, hscan]
  rcases hsc2 : (scanD T d₁ 0 0 none).2 with _ | e <;>
    simp only [hsc2, Option.map_none', Option.map_some', mk_helper] <;> rfl

/-- C4 (corrected): on a fuzzy check whose direct digest lookup misses with
unchecked shingles present, the backend dispatches one batched lookup over
all `RSPAMD_SHINGLE_SIZE` shingle keys; and on a full shingle reply with
positive resolved digests, the shingles callback schedules the second
lookup exactly when more than half the shingles resolved and the
scan-computed occurrence maximum exceeds half the shingle count — where
the scan counts the run of the smallest digest one short whenever every
shingle resolved (`c4_adj_count`/`c4_adj_max`) — and then the selected
digest attains that adjusted maximum and the reported probability is the
adjusted maximum divided by the shingle count. -/
theorem c4_shingles_voting (reply : List (Option Nat))
    (hlen : reply.length = RSPAMD_SHINGLE_SIZE)
    (hpos : ∀ d ∈ resolved_digests reply, 0 < d) :
    (∀ (sc : Nat) (sp : gdouble), 0 < sc →
      rspamd_fuzzy_redis_check_callback true none none sc false sp =
        fuzzy_check_step.check_shingles RSPAMD_SHINGLE_SIZE) ∧
    (rspamd_fuzzy_redis_shingles_callback reply = shingles_outcome.miss ↔
      ¬(16 < (resolved_digests reply).length ∧ 16 < c4_adj_max reply)) ∧
    (16 < (resolved_digests reply).length → 16 < c4_adj_max reply →
      ∃ d, d ∈ resolved_digests reply ∧
        c4_adj_count reply d = c4_adj_max reply ∧
        rspamd_fuzzy_redis_shingles_callback reply =
          shingles_outcome.recheck d
            ((c4_adj_max reply : gdouble) / (RSPAMD_SHINGLE_SIZE : gdouble))) := by
  have hsize : RSPAMD_SHINGLE_SIZE = 32 := rfl
  have hDslen :
      (List.insertionSort (· ≤ ·) (reply.map fun e => e.getD 0)).length = 32 := by
    rw [(List.perm_insertionSort (· ≤ ·) (reply.map fun e => e.getD 0)).length_eq,
      List.length_map, hlen]
    exact hsize
  obtain ⟨d₁, T, hDs⟩ : ∃ a l,
      List.insertionSort (· ≤ ·) (reply.map fun e => e.getD 0) = a :: l := by
    rcases hDse : List.insertionSort (· ≤ ·) (reply.map fun e => e.getD 0) with
      _ | ⟨a, l⟩
    · rw [hDse] at hDslen
      exact absurd hDslen (by decide)
    · exact ⟨a, l, hDse⟩
  have hreduce := shingles_callback_reduce reply hlen hpos d₁ T hDs
  rw [show RSPAMD_SHINGLE_SIZE / 2 = 16 from rfl] at hreduce
  have hsorted : (d₁ :: T).Sorted (· ≤ ·) := by
    rw [← hDs]
    exact List.sorted_insertionSort (· ≤ ·) (reply.map fun e => e.getD 0)
  have hlenDT : (d₁ :: T).length = 32 := by
    rw [← hDs]
    exact hDslen
  have key : (rspamd_fuzzy_redis_shingles_callback reply =
        shingles_outcome.miss ∧
      ¬(16 < (resolved_digests reply).length ∧ 16 < c4_adj_max reply)) ∨
      (16 < (resolved_digests reply).length ∧
        ∃ d, d ∈ resolved_digests reply ∧
          c4_adj_count reply d = c4_adj_max reply ∧
          16 < c4_adj_max reply ∧
          rspamd_fuzzy_redis_shingles_callback reply =
            shingles_outcome.recheck d
              ((c4_adj_max reply : gdouble) /
                (RSPAMD_SHINGLE_SIZE : gdouble))) := by
    by_cases hRlen : 16 < (resolved_digests reply).length
    · by_cases hd₁ : d₁ = 0
      · subst hd₁
        obtain ⟨S', heqA, hS's, hgt⟩ := sorted_run_decomp T 0 hsorted
        have hk₀1 : 1 ≤ ((0 : Nat) :: T).count 0 := by
          rw [List.count_cons_self]
          omega
        obtain ⟨k₀, hk₀eq⟩ : ∃ m, ((0 : Nat) :: T).count 0 = m := ⟨_, rfl⟩
        rw [hk₀eq] at heqA hk₀1
        have hscanA : scanD T 0 0 0 none = scanD S' 0 0 0 none := by
          rw [run_tail_eq 0 T S' k₀ hk₀1 heqA]
          exact scanD_zeros S' (k₀ - 1) 0 0 0 none
        have hfiltS' :
            (List.insertionSort (· ≤ ·) (reply.map fun e => e.getD 0)).filter
              (fun d => decide (d ≠ 0)) = S' := by
          rw [hDs, heqA, List.filter_append, filter_replicate_zero,
            List.filter_eq_self.2
              (fun a ha => decide_eq_true (Nat.pos_iff_ne_zero.1 (hgt a ha))),
            List.nil_append]
        have hS'R : S'.Perm (resolved_digests reply) := by
          have hp := (List.perm_insertionSort (· ≤ ·)
            (reply.map fun e => e.getD 0)).filter (fun d => decide (d ≠ 0))
          rw [hfiltS', resolved_eq_filter reply hpos] at hp
          exact hp
        have hcntA : ∀ x, S'.count x = (resolved_digests reply).count x :=
          fun x => hS'R.count_eq x
        have hmemA : ∀ x : Nat, x ∈ S' ↔ x ∈ resolved_digests reply :=
          fun x => hS'R.mem_iff
        have hR31 : (resolved_digests reply).length < 32 := by
          have hl1 := hS'R.length_eq
          have hl2 := congrArg List.length heqA
          rw [List.length_append, List.length_replicate] at hl2
          simp only [List.length_cons] at hl2 hlenDT
          omega
        have hadjA : ∀ x,
            c4_adj_count reply x = (resolved_digests reply).count x := by
          intro x
          simp only [c4_adj_count]
          rw [if_neg]
          rintro ⟨h32, -⟩
          rw [hsize] at h32
          omega
        by_cases hdupA : ∃ x ∈ S', 2 ≤ S'.count x
        · obtain ⟨x0, hx0, hx02⟩ := hdupA
          obtain ⟨e, heS, he2, -, hres, hbound⟩ :=
            (scanD_sorted_char S'.length S' le_rfl hS's hgt 0 0 0 none hgt).2
              x0 hx0 hx02 (by omega)
          have hfst : (scanD T 0 0 0 none).1 = S'.count e := by
            rw [hscanA, hres]
          have hsnd : (scanD T 0 0 0 none).2 = some e := by
            rw [hscanA, hres]
          have hbound2 : ∀ x ∈ S', S'.count x ≤ S'.count e := by
            intro x hx
            rcases hbound x hx with h | h
            · exact h
            · have hne : ¬ S'.count x = 0 := fun h0 =>
                (List.count_eq_zero.1 h0) hx
              omega
          have heR : e ∈ resolved_digests reply := (hmemA e).1 heS
          have hce : c4_adj_count reply e = S'.count e := by
            rw [hadjA e, ← hcntA e]
          have hmax : c4_adj_max reply = S'.count e := by
            show ((resolved_digests reply).map (c4_adj_count reply)).foldr
              max 0 = S'.count e
            apply foldr_max_eq
            · exact List.mem_map.2 ⟨e, heR, hce⟩
            · intro y hy
              obtain ⟨x, hxR, rfl⟩ := List.mem_map.1 hy
              rw [hadjA x, ← hcntA x]
              exact hbound2 x ((hmemA x).2 hxR)
          by_cases hbig : 16 < S'.count e
          · refine Or.inr ⟨hRlen, e, heR, ?_, ?_, ?_⟩
            · rw [hce, hmax]
            · rw [hmax]
              exact hbig
            · rw [hreduce, if_pos hRlen, hfst, hsnd, if_pos hbig, hmax]
          · refine Or.inl ⟨?_, ?_⟩
            · rw [hreduce, if_pos hRlen, hfst, if_neg hbig]
            · rintro ⟨-, h⟩
              rw [hmax] at h
              exact hbig h
        · push_neg at hdupA
          have hres := (scanD_sorted_char S'.length S' le_rfl hS's hgt
            0 0 0 none hgt).1
            (fun d hd h2 => by have := hdupA d hd; omega)
          have hfst : (scanD T 0 0 0 none).1 = 0 := by
            rw [hscanA, hres]
          refine Or.inl ⟨?_, ?_⟩
          · rw [hreduce, if_pos hRlen, hfst,
              if_neg (by omega : ¬ (16 : Nat) < 0)]
          · rintro ⟨-, h⟩
            have hb : ∀ y ∈ (resolved_digests reply).map (c4_adj_count reply),
                y ≤ 16 := by
              intro y hy
              obtain ⟨x, hxR, rfl⟩ := List.mem_map.1 hy
              rw [hadjA x, ← hcntA x]
              have := hdupA x ((hmemA x).2 hxR)
              omega
            have hlemax : c4_adj_max reply ≤ 16 := foldr_max_le_bound _ 16 hb
            omega
      · have hd₁pos : 0 < d₁ := Nat.pos_of_ne_zero hd₁
        have hallpos : ∀ x ∈ d₁ :: T, 0 < x := by
          intro x hx
          rcases List.mem_cons.1 hx with rfl | hx'
          · exact hd₁pos
          · exact lt_of_lt_of_le hd₁pos ((List.sorted_cons.1 hsorted).1 x hx')
        have hfiltDs : (d₁ :: T).filter (fun d => decide (d ≠ 0)) = d₁ :: T :=
          List.filter_eq_self.2
            (fun a ha => decide_eq_true (Nat.pos_iff_ne_zero.1 (hallpos a ha)))
        have hDsR : (d₁ :: T).Perm (resolved_digests reply) := by
          have hp := (List.perm_insertionSort (· ≤ ·)
            (reply.map fun e => e.getD 0)).filter (fun d => decide (d ≠ 0))
          rw [hDs, hfiltDs, resolved_eq_filter reply hpos] at hp
          exact hp
        have hR32 : (resolved_digests reply).length = 32 := by
          rw [← hDsR.length_eq]
          exact hlenDT
        have hd₁R : d₁ ∈ resolved_digests reply :=
          hDsR.mem_iff.1 (List.mem_cons_self d₁ T)
        have hminR : (resolved_digests reply).min? = some d₁ := by
          apply min_opt_eq_of_le _ _ hd₁R
          intro b hb
          rcases List.mem_cons.1 (hDsR.mem_iff.2 hb) with rfl | hbT
          · exact le_refl _
          · exact (List.sorted_cons.1 hsorted).1 b hbT
        obtain ⟨S', heq, hS's, hgt⟩ := sorted_run_decomp T d₁ hsorted
        have hk1 : 1 ≤ (d₁ :: T).count d₁ := by
          rw [List.count_cons_self]
          omega
        obtain ⟨k, hkeq⟩ : ∃ m, (d₁ :: T).count d₁ = m := ⟨_, rfl⟩
        rw [hkeq] at heq hk1
        have hS'pos : ∀ x ∈ S', 0 < x := fun x hx =>
          lt_trans hd₁pos (hgt x hx)
        have hscanB : scanD T d₁ 0 0 none =
            scanD S' d₁ (k - 1) (k - 1)
              (if 2 ≤ k then some d₁ else none) := by
          rw [run_tail_eq d₁ T S' k hk1 heq, scanD_replicate d₁ hd₁ (k - 1)]
          have e2 : (if 0 < k - 1 ∧ 0 < 0 + (k - 1) then 0 + (k - 1) else 0) =
              k - 1 := by
            split_ifs <;> omega
          have e3 : (if 0 < k - 1 ∧ 0 < 0 + (k - 1) then some d₁ else none) =
              (if 2 ≤ k then some d₁ else none) := by
            split_ifs <;> first | rfl | omega
          have e1 : 0 + (k - 1) = k - 1 := by omega
          rw [e2, e3, e1]
        have hkcount : (resolved_digests reply).count d₁ = k := by
          rw [← hDsR.count_eq d₁]
          exact hkeq
        have hcntB : ∀ x, ¬(x = d₁) →
            S'.count x = (resolved_digests reply).count x := by
          intro x hx
          rw [← hDsR.count_eq x, heq, List.count_append, List.count_replicate]
          have hx' : ¬(d₁ = x) := fun h => hx h.symm
          simp [hx, hx']
        have hmemB : ∀ x : Nat,
            x ∈ resolved_digests reply ↔ (x = d₁ ∨ x ∈ S') := by
          intro x
          rw [← hDsR.mem_iff, heq, List.mem_append, List.mem_replicate]
          constructor
          · rintro (⟨-, h⟩ | h)
            exacts [Or.inl h, Or.inr h]
          · rintro (rfl | h)
            · exact Or.inl ⟨by omega, rfl⟩
            · exact Or.inr h
        have hadjB₁ : c4_adj_count reply d₁ = k - 1 := by
          simp only [c4_adj_count]
          rw [if_pos ⟨by rw [hsize]; exact hR32, hminR⟩, hkcount]
        have hadjB₂ : ∀ x, ¬(x = d₁) →
            c4_adj_count reply x = (resolved_digests reply).count x := by
          intro x hx
          simp only [c4_adj_count]
          rw [if_neg]
          rintro ⟨-, hm⟩
          rw [hminR] at hm
          exact hx (Option.some.inj hm).symm
        by_cases hdupB : ∃ x ∈ S', 2 ≤ S'.count x ∧ k - 1 < S'.count x
        · obtain ⟨x0, hx0, hx02, hx0k⟩ := hdupB
          obtain ⟨e, heS, he2, hek, hres, hbound⟩ :=
            (scanD_sorted_char S'.length S' le_rfl hS's hS'pos d₁ (k - 1)
              (k - 1) (if 2 ≤ k then some d₁ else none) hgt).2 x0 hx0 hx02 hx0k
          have hfst : (scanD T d₁ 0 0 none).1 = S'.count e := by
            rw [hscanB, hres]
          have hsnd : (scanD T d₁ 0 0 none).2 = some e := by
            rw [hscanB, hres]
          have hed : ¬(e = d₁) := fun h => lt_irrefl d₁ (h ▸ hgt e heS)
          have heR : e ∈ resolved_digests reply := (hmemB e).2 (Or.inr heS)
          have hce : c4_adj_count reply e = S'.count e := by
            rw [hadjB₂ e hed, ← hcntB e hed]
          have hmax : c4_adj_max reply = S'.count e := by
            show ((resolved_digests reply).map (c4_adj_count reply)).foldr
              max 0 = S'.count e
            apply foldr_max_eq
            · exact List.mem_map.2 ⟨e, heR, hce⟩
            · intro y hy
              obtain ⟨x, hxR, rfl⟩ := List.mem_map.1 hy
              by_cases hxd : x = d₁
              · subst hxd
                rw [hadjB₁]
                omega
              · rw [hadjB₂ x hxd, ← hcntB x hxd]
                rcases (hmemB x).1 hxR with hc | hxS
                · exact absurd hc hxd
                · rcases hbound x hxS with h | h
                  · exact h
                  · omega
          by_cases hbig : 16 < S'.count e
          · refine Or.inr ⟨hRlen, e, heR, ?_, ?_, ?_⟩
            · rw [hce, hmax]
            · rw [hmax]
              exact hbig
            · rw [hreduce, if_pos hRlen, hfst, hsnd, if_pos hbig, hmax]
          · refine Or.inl ⟨?_, ?_⟩
            · rw [hreduce, if_pos hRlen, hfst, if_neg hbig]
            · rintro ⟨-, h⟩
              rw [hmax] at h
              exact hbig h
        · push_neg at hdupB
          have hres := (scanD_sorted_char S'.length S' le_rfl hS's hS'pos d₁
            (k - 1) (k - 1) (if 2 ≤ k then some d₁ else none) hgt).1 hdupB
          have hfst : (scanD T d₁ 0 0 none).1 = k - 1 := by
            rw [hscanB, hres]
          by_cases hbig : 16 < k - 1
          · have h2k : 2 ≤ k := by omega
            have hsnd : (scanD T d₁ 0 0 none).2 = some d₁ := by
              rw [hscanB, hres]
              show (if 2 ≤ k then some d₁ else none) = some d₁
              rw [if_pos h2k]
            have hmax : c4_adj_max reply = k - 1 := by
              show ((resolved_digests reply).map (c4_adj_count reply)).foldr
                max 0 = k - 1
              apply foldr_max_eq
              · exact List.mem_map.2 ⟨d₁, hd₁R, hadjB₁⟩
              · intro y hy
                obtain ⟨x, hxR, rfl⟩ := List.mem_map.1 hy
                by_cases hxd : x = d₁
                · subst hxd
                  rw [hadjB₁]
                · rw [hadjB₂ x hxd, ← hcntB x hxd]
                  rcases (hmemB x).1 hxR with hc | hxS
                  · exact absurd hc hxd
                  · by_cases h2 : 2 ≤ S'.count x
                    · exact hdupB x hxS h2
                    · omega
            refine Or.inr ⟨hRlen, d₁, hd₁R, ?_, ?_, ?_⟩
            · rw [hadjB₁, hmax]
            · rw [hmax]
              exact hbig
            · rw [hreduce, if_pos hRlen, hfst, hsnd, if_pos hbig, hmax]
          · refine Or.inl ⟨?_, ?_⟩
            · rw [hreduce, if_pos hRlen, hfst, if_neg hbig]
            · rintro ⟨-, h⟩
              have hb : ∀ y ∈ (resolved_digests reply).map
                  (c4_adj_count reply), y ≤ 16 := by
                intro y hy
                obtain ⟨x, hxR, rfl⟩ := List.mem_map.1 hy
                by_cases hxd : x = d₁
                · subst hxd
                  rw [hadjB₁]
                  omega
                · rw [hadjB₂ x hxd, ← hcntB x hxd]
                  rcases (hmemB x).1 hxR with hc | hxS
                  · exact absurd hc hxd
                  · by_cases h2 : 2 ≤ S'.count x
                    · have := hdupB x hxS h2
                      omega
                    · omega
              have hlemax : c4_adj_max reply ≤ 16 :=
                foldr_max_le_bound _ 16 hb
              omega
    · exact Or.inl ⟨by rw [hreduce, if_neg hRlen], fun h => hRlen h.1⟩
  refine ⟨?_, ?_, ?_⟩
  · intro sc sp hsc
    simp [rspamd_fuzzy_redis_check_callback, hsc]
  · constructor
    · intro hmiss
      rcases key with ⟨-, hno⟩ | ⟨-, d, -, -, -, hout⟩
      · exact hno
      · rw [hmiss] at hout
        cases hout
    · intro hno
      rcases key with ⟨hm, -⟩ | ⟨hR, d, -, -, hbig, -⟩
      · exact hm
      · exact absurd ⟨hR, hbig⟩ hno
  · intro hR hbig
    rcases key with ⟨-, hno⟩ | ⟨-, d, hdR, hadjd, -, hout⟩
    · exact absurd ⟨hR, hbig⟩ hno
    · exact ⟨d, hdR, hadjd, hout⟩

theorem c4_shingles_voting_witness :
    rspamd_fuzzy_redis_shingles_callback
      (List.replicate 16 (some 1) ++ List.replicate 16 (some 2)) =
      shingles_outcome.miss := by
  have h := (c4_shingles_voting
    (List.replicate 16 (some 1) ++ List.replicate 16 (some 2))
    (by decide) (by decide)).2.1
  exact h.mpr (by decide)

end Rspamd
